import Mathlib

/-!
Shallow embedding of the Medplum UMLS terminology-ingestion script
(the `processConcepts` / `processProperties` / `prepareRelationshipProperties` /
`processRelationships` pipeline) together with theorems settling the frozen
claims about it.

Modelling conventions, applied uniformly:
* JavaScript `line.split('|')` is modelled by `splitPipe` below (character-level
  split, matching JS semantics including empty fields and the trailing field).
* A record field bound from a missing column (JS `undefined`) is modelled as
  `""`.  Every comparison performed by the script compares fields against
  non-empty literals (`'ENG'`, `'N'`, term-type codes, source abbreviations),
  for which `undefined` and `""` behave identically, and every state mutation
  happens only after the pass's filters have established that the columns the
  mutation reads are present, so this identification is behaviour-preserving.
* JS objects used as string-keyed dictionaries are modelled either as functions
  `String → Option _` (where only lookups matter) or as insertion-ordered
  association lists (where `Object.entries` order matters, e.g. the counters).
* JS string truthiness (`if (s)`, `!s`) is modelled as (in)equality with `""`
  after defaulting `undefined` to `""`.
* `Array.prototype.sort` with a consistent comparator is modelled by a stable
  insertion sort (JS sort is guaranteed stable).
-/

namespace Umls

/-! ## The pipe-split decoder (model of JS `String.prototype.split('|')`) -/

/-- Accumulator-based character split on `'|'`; `acc` holds the current field
reversed. -/
def splitPipeAux : List Char → List Char → List String
  | [], acc => [String.mk acc.reverse]
  | c :: cs, acc =>
    if c = '|' then String.mk acc.reverse :: splitPipeAux cs []
    else splitPipeAux cs (c :: acc)

/-- Model of JS `line.split('|')`: the list of pipe-separated fields of
`line`, in order.  As in JS, the result is never empty and empty fields are
kept. -/
def splitPipe (line : String) : List String :=
  splitPipeAux line.data []

/-- Field access with the JS-`undefined`-as-`""` convention. -/
def fieldD (fs : List String) (i : Nat) : String :=
  fs.getD i ""

/-! ## Small JS-semantics helpers -/

/-- Model of JS `Array.prototype.indexOf` on string arrays: the index of the
first occurrence, or `-1` when absent. -/
def jsIndexOf (l : List String) (x : String) : Int :=
  match l.findIdx? (fun a => a = x) with
  | some i => (i : Int)
  | none => -1

/-- Insertion-ordered counter map, modelling a JS object used as
`Record<string, number>`: `bump` adds 1 to the entry for `k`, appending a
fresh entry at the end on first occurrence (JS objects preserve insertion
order for string keys, and updating a value keeps its position). -/
def bump : List (String × Nat) → String → List (String × Nat)
  | [], k => [(k, 1)]
  | (k', n) :: rest, k =>
    if k' = k then (k', n + 1) :: rest else (k', n) :: bump rest k

/-- Counter lookup with the JS `?? 0` default. -/
def getCount : List (String × Nat) → String → Nat
  | [], _ => 0
  | (k', n) :: rest, k => if k' = k then n else getCount rest k

/-- Insertion-ordered association map used for the per-system batch buffers
(JS `Record<string, T[]>`): set a key's value, keeping its position if
present, else appending. -/
def setAssoc {α : Type} : List (String × α) → String → α → List (String × α)
  | [], k, v => [(k, v)]
  | (k', v') :: rest, k, v =>
    if k' = k then (k', v) :: rest else (k', v') :: setAssoc rest k v

/-- Association map lookup. -/
def getAssoc {α : Type} : List (String × α) → String → Option α
  | [], _ => none
  | (k', v') :: rest, k => if k' = k then some v' else getAssoc rest k

/-- Functional map update, modelling assignment to a JS object key. -/
def setFn {α : Type} (m : String → Option α) (k : String) (v : α) :
    String → Option α :=
  fun k' => if k' = k then some v else m k'

/-! ## Data model: records decoded from the RRF files -/

/-- One row of MRCONSO.RRF, bound positionally from a pipe-split line
(fields in the source order CUI, LAT, TS, LUI, STT, SUI, ISPREF, AUI, SAUI,
SCUI, SDUI, SAB, TTY, CODE, STR, SRL, SUPPRESS). -/
structure UmlsConcept where
  CUI : String
  LAT : String
  TS : String
  LUI : String
  STT : String
  SUI : String
  ISPREF : String
  AUI : String
  SAUI : String
  SCUI : String
  SDUI : String
  SAB : String
  TTY : String
  CODE : String
  STR : String
  SRL : String
  SUPPRESS : String
deriving DecidableEq, Repr

/-- The `UmlsConcept` constructor: positional destructuring of
`line.split('|')`, missing columns defaulting (JS `undefined`, modelled as
`""`). -/
def decodeConcept (line : String) : UmlsConcept :=
  let f := splitPipe line
  { CUI := fieldD f 0, LAT := fieldD f 1, TS := fieldD f 2, LUI := fieldD f 3
    STT := fieldD f 4, SUI := fieldD f 5, ISPREF := fieldD f 6
    AUI := fieldD f 7, SAUI := fieldD f 8, SCUI := fieldD f 9
    SDUI := fieldD f 10, SAB := fieldD f 11, TTY := fieldD f 12
    CODE := fieldD f 13, STR := fieldD f 14, SRL := fieldD f 15
    SUPPRESS := fieldD f 16 }

/-- One row of MRDOC.RRF (DOCKEY, VALUE, TYPE, EXPL). -/
structure UmlsDoc where
  DOCKEY : String
  VALUE : String
  TYPE : String
  EXPL : String
deriving DecidableEq, Repr

def decodeDoc (line : String) : UmlsDoc :=
  let f := splitPipe line
  { DOCKEY := fieldD f 0, VALUE := fieldD f 1, TYPE := fieldD f 2
    EXPL := fieldD f 3 }

/-- One row of MRSAT.RRF (CUI, LUI, SUI, METAUI, STYPE, CODE, ATUI, SATUI,
ATN, SAB, ATV, SUPPRESS). -/
structure UmlsAttribute where
  CUI : String
  LUI : String
  SUI : String
  METAUI : String
  STYPE : String
  CODE : String
  ATUI : String
  SATUI : String
  ATN : String
  SAB : String
  ATV : String
  SUPPRESS : String
deriving DecidableEq, Repr

def decodeAttribute (line : String) : UmlsAttribute :=
  let f := splitPipe line
  { CUI := fieldD f 0, LUI := fieldD f 1, SUI := fieldD f 2
    METAUI := fieldD f 3, STYPE := fieldD f 4, CODE := fieldD f 5
    ATUI := fieldD f 6, SATUI := fieldD f 7, ATN := fieldD f 8
    SAB := fieldD f 9, ATV := fieldD f 10, SUPPRESS := fieldD f 11 }

/-- One row of MRREL.RRF (CUI1, AUI1, STYPE1, REL, CUI2, AUI2, STYPE2, RELA,
RUI, SRUI, SAB, SL, RG, DIR, SUPPRESS). -/
structure UmlsRelationship where
  CUI1 : String
  AUI1 : String
  STYPE1 : String
  REL : String
  CUI2 : String
  AUI2 : String
  STYPE2 : String
  RELA : String
  RUI : String
  SRUI : String
  SAB : String
  SL : String
  RG : String
  DIR : String
  SUPPRESS : String
deriving DecidableEq, Repr

def decodeRelationship (line : String) : UmlsRelationship :=
  let f := splitPipe line
  { CUI1 := fieldD f 0, AUI1 := fieldD f 1, STYPE1 := fieldD f 2
    REL := fieldD f 3, CUI2 := fieldD f 4, AUI2 := fieldD f 5
    STYPE2 := fieldD f 6, RELA := fieldD f 7, RUI := fieldD f 8
    SRUI := fieldD f 9, SAB := fieldD f 10, SL := fieldD f 11
    RG := fieldD f 12, DIR := fieldD f 13, SUPPRESS := fieldD f 14 }

/-! ## The source registry (`umlsSources`) -/

/-- One property descriptor of a `CodeSystem` resource (only the fields the
script reads: `code` and `uri`). -/
structure CodeProp where
  code : String
  uri : String
deriving DecidableEq, Repr

/-- One entry of `umlsSources`: target system URI, ordered accepted term
types, and the CodeSystem resource's property list. -/
structure Source where
  system : String
  tty : List String
  props : List CodeProp
deriving DecidableEq, Repr

def PARENT_PROPERTY : String := "http://hl7.org/fhir/concept-properties#parent"

def CHILD_PROPERTY : String := "http://hl7.org/fhir/concept-properties#child"

/-- Modelled from the spec: the `property` lists of the CodeSystem resources
imported from the script's `./codesystems` module, which is not part of the
provided sources.  The spec says each source's property vocabulary has
"known property codes and two distinguished parent/child property
identifiers"; we model the two distinguished identifiers for SNOMED and
leave the remaining per-source property lists empty.  No theorem below
depends on the concrete contents of these lists: every theorem touching
them quantifies over the property list or avoids the branches that read
it. -/
def snomedProps : List CodeProp :=
  [⟨"parent", PARENT_PROPERTY⟩, ⟨"child", CHILD_PROPERTY⟩]

/-- The static source registry (`umlsSources`), keyed by source
abbreviation; `system` and `tty` are transcribed from the script. -/
def umlsSources : String → Option Source
  | "SNOMEDCT_US" => some ⟨"http://snomed.info/sct", ["FN", "PT", "SY"], snomedProps⟩
  | "LNC" => some ⟨"http://loinc.org", ["LC", "LPDN", "LA", "DN", "HC", "LN", "LG"], []⟩
  | "RXNORM" => some ⟨"http://www.nlm.nih.gov/research/umls/rxnorm",
      ["PSN", "MIN", "SBD", "SCD", "SBDG", "SCDG", "GPCK", "SY"], []⟩
  | "CPT" => some ⟨"http://www.ama-assn.org/go/cpt", ["PT", "HT", "POS", "MP", "GLP"], []⟩
  | "CVX" => some ⟨"http://hl7.org/fhir/sid/cvx", ["PT"], []⟩
  | "ICD10PCS" => some ⟨"http://hl7.org/fhir/sid/icd-10-pcs", ["PT", "HT"], []⟩
  | "ICD10CM" => some ⟨"http://hl7.org/fhir/sid/icd-10-cm", ["PT", "HT"], []⟩
  | _ => none

/-! ## The concept pass (`processConcepts`) -/

/-- One emitted `{code, display}` unit. -/
structure Coding where
  code : String
  display : String
deriving DecidableEq, Repr

/-- State of the concept pass.  `m` is the single `mappedConcepts` object
(holding both atom entries keyed by AUI and winner entries keyed by
`SAB|CODE`); `codings` are the per-system open batches; `flushedCodings`
records every in-stream flush in order; `emitted` is the history of all
codings appended to batches, in order. -/
structure ConceptState where
  processed : Nat
  skipped : Nat
  counts : List (String × Nat)
  codings : List (String × List Coding)
  flushedCodings : List (String × List Coding)
  m : String → Option UmlsConcept
  emitted : List (String × Coding)

def initConceptState : ConceptState :=
  { processed := 0, skipped := 0, counts := [], codings := []
    flushedCodings := [], m := fun _ => none, emitted := [] }

/-- The tail of the concept-pass loop body shared by the new-winner and
replaced-winner paths: store the winner, append its coding to the system's
batch, flush at capacity, and count the record as processed. -/
def conceptAccept (s : ConceptState) (source : Source) (c : UmlsConcept) :
    ConceptState :=
  let m2 := setFn s.m (c.SAB ++ "|" ++ c.CODE) c
  let coding : Coding := { code := c.CODE, display := c.STR }
  let fc := ((getAssoc s.codings source.system).getD []) ++ [coding]
  let s' :=
    if 500 ≤ fc.length then
      { s with m := m2
               codings := setAssoc s.codings source.system []
               flushedCodings := s.flushedCodings ++ [(source.system, fc)] }
    else
      { s with m := m2, codings := setAssoc s.codings source.system fc }
  { s' with processed := s.processed + 1
            emitted := s.emitted ++ [(source.system, coding)] }

/-- The per-line body of the `processConcepts` loop. -/
def conceptStep (s : ConceptState) (line : String) : ConceptState :=
  let c := decodeConcept line
  match umlsSources c.SAB with
  | none => s
  | some source =>
    if c.LAT ≠ "ENG" then s
    else if ¬ source.tty.contains c.TTY then s
    else if c.SUPPRESS ≠ "N" then { s with skipped := s.skipped + 1 }
    else
      let m1 := setFn s.m c.AUI c
      let key := c.SAB ++ "|" ++ c.CODE
      match m1 key with
      | some existing =>
        if jsIndexOf source.tty c.TTY ≥ jsIndexOf source.tty existing.TTY then
          { s with m := m1 }
        else
          conceptAccept { s with m := m1 } source c
      | none =>
        conceptAccept
          { s with m := m1, counts := bump s.counts source.system } source c

/-- Run of the concept-pass loop over a stream of lines. -/
def runConcepts (lines : List String) : ConceptState :=
  lines.foldl conceptStep initConceptState

/-- The step-1 filters of the concept pass: known source, English, accepted
term type, not suppressed. -/
def conceptFilter (c : UmlsConcept) : Bool :=
  match umlsSources c.SAB with
  | none => false
  | some source => c.LAT = "ENG" && source.tty.contains c.TTY && c.SUPPRESS = "N"

/-- The filters of the concept pass that run before the suppress check:
known source, English, accepted term type. -/
def conceptPreFilter (c : UmlsConcept) : Bool :=
  match umlsSources c.SAB with
  | none => false
  | some source => c.LAT = "ENG" && source.tty.contains c.TTY

/-- The filtered-in records of a stream. -/
def filteredConcepts (lines : List String) : List UmlsConcept :=
  (lines.map decodeConcept).filter conceptFilter

/-- The filtered-in records of a stream restricted to one (source, code)
pair, in stream order. -/
def filteredFor (sab code : String) : List String → List UmlsConcept
  | [] => []
  | l :: ls =>
    if conceptFilter (decodeConcept l) = true ∧ (decodeConcept l).SAB = sab ∧
        (decodeConcept l).CODE = code
    then decodeConcept l :: filteredFor sab code ls
    else filteredFor sab code ls

/-- The term-type priority index of a record in its own source's accepted
list. -/
def ttyPriority (c : UmlsConcept) : Int :=
  match umlsSources c.SAB with
  | none => -1
  | some source => jsIndexOf source.tty c.TTY

/-! ## The spec's two-map AtomIndex (refinement target for the keyspace
disjointness claim) -/

/-- The AtomIndex exactly as the spec describes it: a map from
atom-identifier to record and a separate map from the `SAB|CODE` winner key
to the winning record. -/
structure AtomIndex2 where
  atoms : String → Option UmlsConcept
  winners : String → Option UmlsConcept

/-- The concept-pass step on the spec's two-map AtomIndex (only the index
components; filters and preference logic identical to `conceptStep`). -/
def conceptStep2 (s : AtomIndex2) (line : String) : AtomIndex2 :=
  let c := decodeConcept line
  match umlsSources c.SAB with
  | none => s
  | some source =>
    if c.LAT ≠ "ENG" then s
    else if ¬ source.tty.contains c.TTY then s
    else if c.SUPPRESS ≠ "N" then s
    else
      let atoms1 := setFn s.atoms c.AUI c
      let key := c.SAB ++ "|" ++ c.CODE
      match s.winners key with
      | some existing =>
        if jsIndexOf source.tty c.TTY ≥ jsIndexOf source.tty existing.TTY then
          { atoms := atoms1, winners := s.winners }
        else
          { atoms := atoms1, winners := setFn s.winners key c }
      | none => { atoms := atoms1, winners := setFn s.winners key c }

def runConcepts2 (lines : List String) : AtomIndex2 :=
  lines.foldl conceptStep2 ⟨fun _ => none, fun _ => none⟩

/-! ## The batch emitter (per-system batching pattern of all passes) -/

/-- Open batch plus the batches flushed so far, for one target system. -/
structure BatchState (α : Type) where
  buf : List α
  flushed : List (List α)
deriving Repr

/-- The per-item batching step used identically in `processConcepts`,
`processProperties` and `processRelationships`: push the item, then flush
(send and clear) when the batch has reached 500 items. -/
def batchAppend {α : Type} (s : BatchState α) (x : α) : BatchState α :=
  let b := s.buf ++ [x]
  if 500 ≤ b.length then { buf := [], flushed := s.flushed ++ [b] }
  else { buf := b, flushed := s.flushed }

/-- Feed a stream of items destined for one system through the batcher. -/
def batchRun {α : Type} (xs : List α) : BatchState α :=
  xs.foldl batchAppend ⟨[], []⟩

/-- End-of-stream: flush the open batch if non-empty, yielding the full
flush sequence. -/
def batchFinish {α : Type} (s : BatchState α) : List (List α) :=
  if s.buf.isEmpty then s.flushed else s.flushed ++ [s.buf]

/-! ## The run reporter (summary sorting) -/

/-- Stable insertion of `x` into `l` under a JS comparator: `x` goes before
the first element `y` with `cmp x y ≤ 0`. -/
def insertSorted {α : Type} (cmp : α → α → Int) (x : α) : List α → List α
  | [] => [x]
  | y :: ys => if cmp x y ≤ 0 then x :: y :: ys else y :: insertSorted cmp x ys

/-- Stable sort under a JS comparator (model of `Array.prototype.sort`,
stable per the ECMAScript spec). -/
def sortByCmp {α : Type} (cmp : α → α → Int) (l : List α) : List α :=
  l.foldr (insertSorted cmp) []

/-- The concept-pass summary comparator `(l, r) => r[1] - l[1]`. -/
def conceptCountsCmp (l r : String × Nat) : Int := (r.2 : Int) - (l.2 : Int)

/-- The sorted per-system summary printed at the end of `processConcepts`. -/
def conceptSummary (lines : List String) : List (String × Nat) :=
  sortByCmp conceptCountsCmp (runConcepts lines).counts

/-! ## The documentation pass (`prepareRelationshipProperties`) -/

/-- The `{rel?, rela?}` pair accumulated per abbreviation (missing members
modelled as `""`). -/
structure DocMapping where
  rel : String
  rela : String
deriving DecidableEq, Repr

/-- The per-line body of the `prepareRelationshipProperties` loop. -/
def docStep (pm : List (String × DocMapping)) (line : String) :
    List (String × DocMapping) :=
  let doc := decodeDoc line
  if doc.DOCKEY = "REL" ∧ doc.TYPE = "snomedct_rel_mapping" then
    let prev := (getAssoc pm doc.VALUE).getD ⟨"", ""⟩
    setAssoc pm doc.VALUE { prev with rel := doc.EXPL }
  else if doc.DOCKEY = "RELA" ∧ doc.TYPE = "snomedct_rela_mapping" then
    let prev := (getAssoc pm doc.VALUE).getD ⟨"", ""⟩
    setAssoc pm doc.VALUE { prev with rela := doc.EXPL }
  else pm

/-- Stage A of the relationship resolver: derive the
`"SNOMEDCT_US/rel/rela" → property` map from the documentation stream. -/
def prepareRelationshipProperties (lines : List String) :
    String → Option String :=
  let pm := lines.foldl docStep []
  pm.foldl
    (fun acc p =>
      setFn acc ("SNOMEDCT_US/" ++ p.2.rel ++ "/" ++ p.2.rela) p.1)
    (fun _ => none)

/-! ## The attribute pass (`processProperties`) -/

/-- The static alias table `mappedProperties`. -/
def mappedProperties : String → Option String
  | "LOINC_COMPONENT" => some "COMPONENT"
  | "LOINC_METHOD_TYP" => some "METHOD_TYP"
  | "LOINC_PROPERTY" => some "PROPERTY"
  | "LOINC_SCALE_TYP" => some "SCALE_TYP"
  | "LOINC_SYSTEM" => some "SYSTEM"
  | "LOINC_TIME_ASPECT" => some "TIME_ASPCT"
  | "LOR" => some "ORDER_OBS"
  | "LQS" => some "SURVEY_QUEST_SRC"
  | "LQT" => some "SURVEY_QUEST_TEXT"
  | "LRN2" => some "RELATEDNAMES2"
  | "LCL" => some "CLASS"
  | "LCN" => some "CLASSTYPE"
  | "LCS" => some "STATUS"
  | "LCT" => some "CHNG_TYPE"
  | "LEA" => some "EXMPL_ANSWERS"
  | "LFO" => some "FORMULA"
  | "LMP" => some "MAP_TO"
  | "LUR" => some "UNITSREQUIRED"
  | "LC" => some "LONG_COMMON_NAME"
  | _ => none

/-- One emitted `{code, property, value}` assertion. -/
structure Property where
  code : String
  property : String
  value : String
deriving DecidableEq, Repr

/-- State of the attribute pass. -/
structure AttrState where
  processed : Nat
  skipped : Nat
  counts : List (String × Nat)
  properties : List (String × List Property)
  flushedProperties : List (String × List Property)
  emitted : List (String × Property)

def initAttrState : AttrState :=
  { processed := 0, skipped := 0, counts := [], properties := []
    flushedProperties := [], emitted := [] }

/-- The per-line body of the `processProperties` loop. -/
def attrStep (s : AttrState) (line : String) : AttrState :=
  let attr := decodeAttribute line
  match umlsSources attr.SAB with
  | none => s
  | some source =>
    if attr.SUPPRESS ≠ "N" then { s with skipped := s.skipped + 1 }
    else
      match source.props.find?
          (fun p => attr.ATN = p.code || mappedProperties attr.ATN = some p.code) with
      | none => s
      | some property =>
        let prop : Property :=
          { code := attr.CODE, property := property.code, value := attr.ATV }
        let fp := ((getAssoc s.properties source.system).getD []) ++ [prop]
        let s' :=
          if 500 ≤ fp.length then
            { s with properties := setAssoc s.properties source.system []
                     flushedProperties :=
                       s.flushedProperties ++ [(source.system, fp)] }
          else
            { s with properties := setAssoc s.properties source.system fp }
        { s' with
            counts := bump s.counts (source.system ++ "|" ++ property.code)
            processed := s.processed + 1
            emitted := s.emitted ++ [(source.system, prop)] }

def runAttributes (lines : List String) : AttrState :=
  lines.foldl attrStep initAttrState

/-! ## The relationship pass (`processRelationships`) -/

/-- The target-property-code resolution of the relationship pass, exactly as
coded: Stage-A map value (used only when truthy), then the `PAR`/`CHD`
fallbacks to the source's configured parent/child property code (defaulting
to `""`), then the final truthiness rejection. -/
def resolvePropertyName (relProps : String → Option String) (source : Source)
    (rel : UmlsRelationship) : Option String :=
  let mapped := (relProps (rel.SAB ++ "/" ++ rel.REL ++ "/" ++ rel.RELA)).getD ""
  let propertyName : String :=
    if mapped ≠ "" then mapped
    else if rel.REL = "PAR" then
      ((source.props.find? (fun p => p.uri = PARENT_PROPERTY)).map CodeProp.code).getD ""
    else if rel.REL = "CHD" then
      ((source.props.find? (fun p => p.uri = CHILD_PROPERTY)).map CodeProp.code).getD ""
    else ""
  if propertyName = "" then none else some propertyName

/-- The resolution order exactly as the claim words it: (a) an exact lookup
in the Stage-A map (whatever value it holds), else (b)/(c) the `PAR`/`CHD`
fallbacks, else unmappable. -/
def resolvePropertyNameClaim (relProps : String → Option String)
    (source : Source) (rel : UmlsRelationship) : Option String :=
  match relProps (rel.SAB ++ "/" ++ rel.REL ++ "/" ++ rel.RELA) with
  | some s => some s
  | none =>
    if rel.REL = "PAR" then
      (source.props.find? (fun p => p.uri = PARENT_PROPERTY)).map CodeProp.code
    else if rel.REL = "CHD" then
      (source.props.find? (fun p => p.uri = CHILD_PROPERTY)).map CodeProp.code
    else none

/-- State of the relationship pass.  `warnings` is the history of
`console.warn` calls for missing atoms: (property name, `REL/RELA` label,
the atom identifier reported missing). -/
structure RelState where
  processed : Nat
  skipped : Nat
  counts : List (String × Nat)
  properties : List (String × List Property)
  flushedProperties : List (String × List Property)
  emitted : List (String × Property)
  warnings : List (String × String × String)

def initRelState : RelState :=
  { processed := 0, skipped := 0, counts := [], properties := []
    flushedProperties := [], emitted := [], warnings := [] }

/-- The per-line body of the `processRelationships` loop.  `relProps` is the
Stage-A map and `mappedCodes` the atom index retained from the concept
pass. -/
def relStep (relProps : String → Option String)
    (mappedCodes : String → Option UmlsConcept) (s : RelState)
    (line : String) : RelState :=
  let rel := decodeRelationship line
  match umlsSources rel.SAB with
  | none => s
  | some source =>
    if rel.SUPPRESS ≠ "N" then { s with skipped := s.skipped + 1 }
    else
      match resolvePropertyName relProps source rel with
      | none => s
      | some propertyName =>
        let code := ((mappedCodes rel.AUI1).map UmlsConcept.CODE).getD ""
        let value := ((mappedCodes rel.AUI2).map UmlsConcept.CODE).getD ""
        if code = "" ∨ value = "" then
          { s with
              skipped := s.skipped + 1
              warnings := s.warnings ++
                [(propertyName, rel.REL ++ "/" ++ rel.RELA,
                  if code ≠ "" then rel.AUI2 else rel.AUI1)] }
        else
          let prop : Property :=
            { code := code, property := propertyName, value := value }
          let fp := ((getAssoc s.properties source.system).getD []) ++ [prop]
          let s' :=
            if 500 ≤ fp.length then
              { s with properties := setAssoc s.properties source.system []
                       flushedProperties :=
                         s.flushedProperties ++ [(source.system, fp)] }
            else
              { s with properties := setAssoc s.properties source.system fp }
          { s' with
              counts := bump s.counts
                (source.system ++ "|" ++ propertyName ++ " (" ++ rel.REL
                  ++ "/" ++ rel.RELA ++ ")")
              processed := s.processed + 1
              emitted := s.emitted ++ [(source.system, prop)] }

def runRelationships (relProps : String → Option String)
    (mappedCodes : String → Option UmlsConcept) (lines : List String) :
    RelState :=
  lines.foldl (relStep relProps mappedCodes) initRelState

/-! ## Concrete example lines used by witnesses and counterexamples -/

/-- SNOMED `PT` row for code 100, display "Heart A", atom A1. -/
def exPT_A : String := "C1|ENG|P|L1|PF|S1|Y|A1||||SNOMEDCT_US|PT|100|Heart A|0|N"

/-- SNOMED `PT` row for code 100, display "Heart B", atom A2 (same term-type
priority as `exPT_A`). -/
def exPT_B : String := "C1|ENG|P|L2|PF|S2|N|A2||||SNOMEDCT_US|PT|100|Heart B|0|N"

/-- SNOMED `SY` row for code 100 (priority index 2), atom A3. -/
def exSY : String := "C1|ENG|S|L3|VO|S3|N|A3||||SNOMEDCT_US|SY|100|Heart syn|0|N"

/-- SNOMED `FN` row for code 100 (priority index 0), atom A4. -/
def exFN : String := "C1|ENG|P|L4|PF|S4|Y|A4||||SNOMEDCT_US|FN|100|Heart FN|0|N"

/-- LOINC `LC` row for code 200, atom A9. -/
def exLoinc : String := "C2|ENG|P|L5|PF|S5|Y|A9||||LNC|LC|200|Lab thing|0|N"

/-- SNOMED row with an empty CODE column, atom A5: passes every filter (the
filters never read CODE) and is indexed under its AUI. -/
def exEmptyCode : String := "C3|ENG|P|L6|PF|S6|Y|A5||||SNOMEDCT_US|PT||Ghost|0|N"

/-- SNOMED `PT` row for code 200, atom A6. -/
def exPT200 : String := "C4|ENG|P|L7|PF|S7|Y|A6||||SNOMEDCT_US|PT|200|Lung|0|N"

/-- A suppressed French-language SNOMED row: fails the language filter and
is suppressed. -/
def exFreSuppressed : String :=
  "C5|FRE|P|L8|PF|S8|Y|A7||||SNOMEDCT_US|PT|300|Coeur|0|O"

/-- A suppressed English SNOMED row that passes the other filters. -/
def exEngSuppressed : String :=
  "C6|ENG|P|L9|PF|S9|Y|A8||||SNOMEDCT_US|PT|400|Old heart|0|O"

/-- A SNOMED relationship row `RO` linking atoms A5 and A6. -/
def exRelRO : String := "C3|A5|AUI|RO|C4|A6|AUI||R1||SNOMEDCT_US|SNOMEDCT_US|||N"

/-- A SNOMED relationship row `RO` linking atoms A4 and A6. -/
def exRelRO2 : String := "C1|A4|AUI|RO|C4|A6|AUI||R2||SNOMEDCT_US|SNOMEDCT_US|||N"

/-- A documentation row mapping `REL` abbreviation `RO` to property
`someprop`. -/
def exDocRO : String := "REL|someprop|snomedct_rel_mapping|RO"

/-- A malformed (3-column) documentation row whose DOCKEY/TYPE still match
the Stage-A filter. -/
def exDocShort : String := "REL|RB|snomedct_rel_mapping"

/-- A SNOMED relationship row whose REL label `XX` is neither mapped nor a
parent/child code. -/
def exRelXX : String := "C1|A4|AUI|XX|C4|A6|AUI||R3||SNOMEDCT_US|SNOMEDCT_US|||N"

/-- A malformed (3-column) concept row. -/
def exShortConcept : String := "C9|ENG|P"

/-- `exPT_A` with two extra columns appended. -/
def exPT_A_extra : String := exPT_A ++ "|EXTRA|MORE"

/-! ## Helper lemmas: pipe-freeness and the two keyspaces -/

theorem splitPipeAux_pipe_free (cs : List Char) : ∀ acc : List Char, '|' ∉ acc →
    ∀ f ∈ splitPipeAux cs acc, '|' ∉ f.data := by
  induction cs with
  | nil =>
    intro acc hacc f hf
    simp only [splitPipeAux, List.mem_singleton] at hf
    subst hf
    simpa using fun h => hacc (List.mem_reverse.mp h)
  | cons c cs ih =>
    intro acc hacc f hf
    rw [splitPipeAux] at hf
    by_cases hc : c = '|'
    · rw [if_pos hc] at hf
      rcases List.mem_cons.mp hf with hf | hf
      · subst hf
        simpa using fun h => hacc (List.mem_reverse.mp h)
      · exact ih [] (by simp) f hf
    · rw [if_neg hc] at hf
      refine ih (c :: acc) ?_ f hf
      intro h
      rcases List.mem_cons.mp h with h | h
      · exact hc h.symm
      · exact hacc h

/-- Every field produced by the pipe-split is pipe-free. -/
theorem splitPipe_pipe_free {line : String} {f : String}
    (hf : f ∈ splitPipe line) : '|' ∉ f.data :=
  splitPipeAux_pipe_free line.data [] (by simp) f hf

/-- Every field read out of a split line (with the `undefined`-as-`""`
default) is pipe-free. -/
theorem fieldD_pipe_free (line : String) (i : Nat) :
    '|' ∉ (fieldD (splitPipe line) i).data := by
  unfold fieldD
  rw [List.getD_eq_getElem?_getD]
  rcases h : (splitPipe line)[i]? with _ | f
  · simp
  · have hm : f ∈ splitPipe line := List.getElem?_mem h
    simpa using splitPipe_pipe_free hm

theorem data_append (a b : String) : (a ++ b).data = a.data ++ b.data := by
  cases a; cases b; rfl

/-- A pipe-free string is never equal to a string built as `a ++ "|" ++ b`:
this is the keyspace-disjointness mechanism of the concept map. -/
theorem pipe_free_ne_key {s : String} (hs : '|' ∉ s.data) (a b : String) :
    s ≠ a ++ "|" ++ b := by
  intro h
  apply hs
  rw [h, data_append, data_append]
  simp [String.data]

theorem append_pipe_inj_data {a c : List Char} (ha : '|' ∉ a) (hc : '|' ∉ c)
    {r r' : List Char} (h : a ++ '|' :: r = c ++ '|' :: r') :
    a = c ∧ r = r' := by
  induction a generalizing c with
  | nil =>
    cases c with
    | nil => simpa using h
    | cons x c =>
      exfalso
      simp only [List.nil_append, List.cons_append, List.cons.injEq] at h
      exact hc (by simp [← h.1])
  | cons x a ih =>
    cases c with
    | nil =>
      exfalso
      simp only [List.cons_append, List.nil_append, List.cons.injEq] at h
      exact ha (by simp [h.1])
    | cons y c =>
      simp only [List.cons_append, List.cons.injEq] at h
      obtain ⟨hxy, hrest⟩ := h
      have := ih (fun hm => ha (List.mem_cons_of_mem _ hm))
        (fun hm => hc (List.mem_cons_of_mem _ hm)) hrest
      exact ⟨by simp [hxy, this.1], this.2⟩

/-- Winner keys `a ++ "|" ++ b` with pipe-free halves are injective in the
pair `(a, b)`. -/
theorem key_inj {a b c d : String} (ha : '|' ∉ a.data)
    (hc : '|' ∉ c.data) (h : a ++ "|" ++ b = c ++ "|" ++ d) :
    a = c ∧ b = d := by
  have hdata : a.data ++ '|' :: b.data = c.data ++ '|' :: d.data := by
    have := congrArg String.data h
    rw [data_append, data_append, data_append, data_append] at this
    simpa [String.data] using this
  have := append_pipe_inj_data ha hc hdata
  exact ⟨String.ext this.1, String.ext this.2⟩

/-- The decoded concept fields used as map-key material are pipe-free. -/
theorem decodeConcept_pipe_free (line : String) :
    '|' ∉ (decodeConcept line).AUI.data ∧ '|' ∉ (decodeConcept line).SAB.data ∧
    '|' ∉ (decodeConcept line).CODE.data :=
  ⟨fieldD_pipe_free line 7, fieldD_pipe_free line 11, fieldD_pipe_free line 13⟩

/-! ## Helper lemmas: maps and counters -/

theorem setFn_self {α : Type} (m : String → Option α) (k : String) (v : α) :
    setFn m k v k = some v := by
  simp [setFn]

theorem setFn_ne {α : Type} (m : String → Option α) {k k' : String} (v : α)
    (h : k' ≠ k) : setFn m k v k' = m k' := by
  simp [setFn, h]

theorem getCount_bump_self (l : List (String × Nat)) (k : String) :
    getCount (bump l k) k = getCount l k + 1 := by
  induction l with
  | nil => simp [bump, getCount]
  | cons p rest ih =>
    by_cases h : p.1 = k
    · simp [bump, getCount, h]
    · simp [bump, getCount, h, ih]

theorem getCount_bump_ne (l : List (String × Nat)) {k k' : String}
    (h : k' ≠ k) : getCount (bump l k) k' = getCount l k' := by
  induction l with
  | nil => simp [bump, getCount, Ne.symm h]
  | cons p rest ih =>
    by_cases hp : p.1 = k
    · simp [bump, getCount, hp, Ne.symm h, ih]
    · simp only [bump, hp, if_false, getCount]
      by_cases hp' : p.1 = k'
      · simp [hp']
      · simp [hp', ih]

/-! ## Helper lemmas: the concept-pass step -/

theorem conceptAccept_m (s : ConceptState) (source : Source) (c : UmlsConcept) :
    (conceptAccept s source c).m = setFn s.m (c.SAB ++ "|" ++ c.CODE) c := by
  unfold conceptAccept
  dsimp only
  split <;> rfl

theorem conceptAccept_counts (s : ConceptState) (source : Source)
    (c : UmlsConcept) : (conceptAccept s source c).counts = s.counts := by
  unfold conceptAccept
  dsimp only
  split <;> rfl

theorem conceptAccept_processed (s : ConceptState) (source : Source)
    (c : UmlsConcept) : (conceptAccept s source c).processed = s.processed + 1 := by
  unfold conceptAccept
  dsimp only

theorem conceptAccept_skipped (s : ConceptState) (source : Source)
    (c : UmlsConcept) : (conceptAccept s source c).skipped = s.skipped := by
  unfold conceptAccept
  dsimp only
  split <;> rfl

theorem conceptAccept_emitted (s : ConceptState) (source : Source)
    (c : UmlsConcept) :
    (conceptAccept s source c).emitted =
      s.emitted ++ [(source.system, { code := c.CODE, display := c.STR })] := by
  unfold conceptAccept
  dsimp only

/-- Characterization of the step on a record passing all four filters: the
atom write never aliases the winner key, so the winner lookup reads the
pre-step map. -/
theorem conceptStep_accepted (s : ConceptState) (line : String) (source : Source)
    (hsrc : umlsSources (decodeConcept line).SAB = some source)
    (hlat : (decodeConcept line).LAT = "ENG")
    (htty : source.tty.contains (decodeConcept line).TTY = true)
    (hsup : (decodeConcept line).SUPPRESS = "N") :
    conceptStep s line =
      match s.m ((decodeConcept line).SAB ++ "|" ++ (decodeConcept line).CODE) with
      | some existing =>
        if jsIndexOf source.tty (decodeConcept line).TTY ≥
            jsIndexOf source.tty existing.TTY then
          { s with m := setFn s.m (decodeConcept line).AUI (decodeConcept line) }
        else
          conceptAccept
            { s with m := setFn s.m (decodeConcept line).AUI (decodeConcept line) }
            source (decodeConcept line)
      | none =>
        conceptAccept
          { s with m := setFn s.m (decodeConcept line).AUI (decodeConcept line)
                   counts := bump s.counts source.system }
          source (decodeConcept line) := by
  have hne : (decodeConcept line).SAB ++ "|" ++ (decodeConcept line).CODE ≠
      (decodeConcept line).AUI :=
    Ne.symm (pipe_free_ne_key (decodeConcept_pipe_free line).1 _ _)
  have hmem : (decodeConcept line).TTY ∈ source.tty := by simpa using htty
  simp only [conceptStep, hsrc]
  rw [if_neg (by simp [hlat] : ¬ (decodeConcept line).LAT ≠ "ENG")]
  rw [if_neg (by simp [hmem] : ¬ ¬ source.tty.contains (decodeConcept line).TTY)]
  rw [if_neg (by simp [hsup] : ¬ (decodeConcept line).SUPPRESS ≠ "N")]
  rw [setFn_ne s.m (decodeConcept line) hne]

/-- A record failing any of the four filters leaves everything but the skip
counter unchanged, and bumps the skip counter by at most one. -/
theorem conceptStep_filtered_out (s : ConceptState) (line : String)
    (h : conceptFilter (decodeConcept line) = false) :
    (conceptStep s line).m = s.m ∧ (conceptStep s line).counts = s.counts ∧
    (conceptStep s line).codings = s.codings ∧
    (conceptStep s line).flushedCodings = s.flushedCodings ∧
    (conceptStep s line).emitted = s.emitted ∧
    (conceptStep s line).processed = s.processed ∧
    ((conceptStep s line).skipped = s.skipped ∨
      (conceptStep s line).skipped = s.skipped + 1) := by
  unfold conceptFilter at h
  unfold conceptStep
  cases hsrc : umlsSources (decodeConcept line).SAB with
  | none => simp [hsrc]
  | some source =>
    rw [hsrc] at h
    simp only [hsrc]
    by_cases hlat : (decodeConcept line).LAT = "ENG"
    · by_cases hmem : (decodeConcept line).TTY ∈ source.tty
      · have hsup : ¬ (decodeConcept line).SUPPRESS = "N" := by
          simpa [hlat, hmem] using h
        rw [if_neg (by simp [hlat] : ¬ (decodeConcept line).LAT ≠ "ENG")]
        rw [if_neg (by simp [hmem] : ¬ ¬ source.tty.contains (decodeConcept line).TTY)]
        rw [if_pos hsup]
        simp
      · rw [if_neg (by simp [hlat] : ¬ (decodeConcept line).LAT ≠ "ENG")]
        rw [if_pos (by simpa using hmem)]
        simp
    · rw [if_pos (by simpa using hlat)]
      simp

/-! ## Claim C2: winner update and first-occurrence counting -/

/-- C2: in `processConcepts`, a filtered-in record with no incumbent winner
for its `SAB|CODE` key becomes the winner and bumps exactly its system's
first-occurrence counter; with an incumbent, it replaces the winner exactly
when its term-type priority index is strictly lower, and the counters are
untouched.  Concretely, for the two SNOMED rows with priority indices 2
(`SY`) and 0 (`FN`) for code 100, both arrival orders leave the index-0 row
as the final winner with exactly one first occurrence counted. -/
theorem concept_winner_update_and_first_occurrence :
    (∀ (s : ConceptState) (line : String) (source : Source),
      umlsSources (decodeConcept line).SAB = some source →
      (decodeConcept line).LAT = "ENG" →
      source.tty.contains (decodeConcept line).TTY = true →
      (decodeConcept line).SUPPRESS = "N" →
      ((s.m ((decodeConcept line).SAB ++ "|" ++ (decodeConcept line).CODE) = none →
        (conceptStep s line).m
            ((decodeConcept line).SAB ++ "|" ++ (decodeConcept line).CODE)
          = some (decodeConcept line) ∧
        getCount (conceptStep s line).counts source.system
          = getCount s.counts source.system + 1 ∧
        ∀ k, k ≠ source.system →
          getCount (conceptStep s line).counts k = getCount s.counts k) ∧
      (∀ e,
        s.m ((decodeConcept line).SAB ++ "|" ++ (decodeConcept line).CODE) = some e →
        (conceptStep s line).m
            ((decodeConcept line).SAB ++ "|" ++ (decodeConcept line).CODE)
          = some (if jsIndexOf source.tty (decodeConcept line).TTY <
                    jsIndexOf source.tty e.TTY then decodeConcept line else e) ∧
        (conceptStep s line).counts = s.counts))) ∧
    ((runConcepts [exSY, exFN]).m "SNOMEDCT_US|100" = some (decodeConcept exFN) ∧
     (runConcepts [exFN, exSY]).m "SNOMEDCT_US|100" = some (decodeConcept exFN) ∧
     getCount (runConcepts [exSY, exFN]).counts "http://snomed.info/sct" = 1 ∧
     getCount (runConcepts [exFN, exSY]).counts "http://snomed.info/sct" = 1) := by
  constructor
  · intro s line source hsrc hlat htty hsup
    have hne : (decodeConcept line).SAB ++ "|" ++ (decodeConcept line).CODE ≠
        (decodeConcept line).AUI :=
      Ne.symm (pipe_free_ne_key (decodeConcept_pipe_free line).1 _ _)
    rw [conceptStep_accepted s line source hsrc hlat htty hsup]
    constructor
    · intro hnone
      simp only [hnone]
      refine ⟨?_, ?_, ?_⟩
      · rw [conceptAccept_m]
        exact setFn_self _ _ _
      · rw [conceptAccept_counts]
        exact getCount_bump_self _ _
      · intro k hk
        rw [conceptAccept_counts]
        exact getCount_bump_ne _ hk
    · intro e he
      simp only [he]
      by_cases hge : jsIndexOf source.tty (decodeConcept line).TTY ≥
          jsIndexOf source.tty e.TTY
      · rw [if_pos hge, if_neg (not_lt.mpr hge)]
        exact ⟨(setFn_ne s.m (decodeConcept line) hne).trans he, rfl⟩
      · rw [if_neg hge, if_pos (lt_of_not_ge hge)]
        refine ⟨?_, ?_⟩
        · rw [conceptAccept_m]
          exact setFn_self _ _ _
        · rw [conceptAccept_counts]
  · exact ⟨by decide, by decide, by decide, by decide⟩

/-- Witness for C2: the general part applied to the single row `exPT_A`
starting from the empty state. -/
theorem concept_winner_update_witness :
    (conceptStep initConceptState exPT_A).m "SNOMEDCT_US|100"
      = some (decodeConcept exPT_A) ∧
    getCount (conceptStep initConceptState exPT_A).counts "http://snomed.info/sct"
      = getCount initConceptState.counts "http://snomed.info/sct" + 1 := by
  have h := (concept_winner_update_and_first_occurrence.1 initConceptState exPT_A
      ⟨"http://snomed.info/sct", ["FN", "PT", "SY"], snomedProps⟩
      (by decide) (by decide) (by decide) (by decide)).1 rfl
  have hkey : (decodeConcept exPT_A).SAB ++ "|" ++ (decodeConcept exPT_A).CODE
      = "SNOMEDCT_US|100" := by decide
  exact ⟨by rw [← hkey]; exact h.1, h.2.1⟩

/-! ## Claim C3: suppression exclusion -/

/-- C3 counterexample: the suppressed French-language row `exFreSuppressed`
(SUPPRESS = "O") is dropped by the language filter before the suppress
check, so the skip counter does not increment — refuting "every concept
record whose SUPPRESS flag is not 'N' increments the skip counter by
exactly one". -/
theorem suppression_exclusion_counterexample :
    (decodeConcept exFreSuppressed).SUPPRESS = "O" ∧
    (runConcepts [exFreSuppressed]).skipped = 0 := by decide

/-- C3 amended: a record whose SUPPRESS flag is not "N" causes no state
mutation whatsoever (no atom-index entry, no winner, no batch append, no
processed count); the skip counter increments by exactly one if the record
also passes the source/language/term-type filters that run first, and by
zero otherwise. -/
theorem suppression_exclusion_amended :
    ∀ (s : ConceptState) (line : String),
      (decodeConcept line).SUPPRESS ≠ "N" →
      (conceptStep s line).m = s.m ∧
      (conceptStep s line).codings = s.codings ∧
      (conceptStep s line).flushedCodings = s.flushedCodings ∧
      (conceptStep s line).emitted = s.emitted ∧
      (conceptStep s line).counts = s.counts ∧
      (conceptStep s line).processed = s.processed ∧
      (conceptStep s line).skipped = s.skipped +
        (if conceptPreFilter (decodeConcept line) = true then 1 else 0) := by
  intro s line hsup
  unfold conceptStep conceptPreFilter
  cases hsrc : umlsSources (decodeConcept line).SAB with
  | none => simp [hsrc]
  | some source =>
    simp only [hsrc]
    by_cases hlat : (decodeConcept line).LAT = "ENG"
    · by_cases hmem : (decodeConcept line).TTY ∈ source.tty
      · rw [if_neg (by simp [hlat] : ¬ (decodeConcept line).LAT ≠ "ENG")]
        rw [if_neg (by simp [hmem] : ¬ ¬ source.tty.contains (decodeConcept line).TTY)]
        rw [if_pos hsup]
        simp [hlat, hmem]
      · rw [if_neg (by simp [hlat] : ¬ (decodeConcept line).LAT ≠ "ENG")]
        rw [if_pos (by simpa using hmem)]
        simp [hmem]
    · rw [if_pos (by simpa using hlat)]
      simp [hlat]

/-- Witness for C3 (amended): the suppressed English row `exEngSuppressed`
passes the prior filters, so its skip increment is exactly one and the map
is untouched. -/
theorem suppression_exclusion_witness :
    (conceptStep initConceptState exEngSuppressed).m = initConceptState.m ∧
    (conceptStep initConceptState exEngSuppressed).emitted
      = initConceptState.emitted ∧
    (conceptStep initConceptState exEngSuppressed).skipped
      = initConceptState.skipped +
        (if conceptPreFilter (decodeConcept exEngSuppressed) = true then 1 else 0) := by
  have h := suppression_exclusion_amended initConceptState exEngSuppressed (by decide)
  exact ⟨h.1, h.2.2.2.1, h.2.2.2.2.2.2⟩

/-! ## Claim C7: per-record batch append -/

/-- C7 counterexample: two filtered-in SNOMED `PT` rows for the same code
100 (equal priority) append only one coding — the second record loses the
winner comparison and is skipped before the batch append, refuting "the
number of coding items appended for a system equals the number of
filtered-in records for that system". -/
theorem per_record_append_counterexample :
    (filteredConcepts [exPT_A, exPT_B]).length = 2 ∧
    (runConcepts [exPT_A, exPT_B]).emitted.length = 1 := by decide

/-- C7 amended: a filtered-in record appends the `{code, display}` of
itself (as the new winner) exactly when it becomes the winner — no
incumbent, or a strictly better priority; a record losing the comparison
appends nothing and is not counted as processed. -/
theorem per_record_append_amended :
    ∀ (s : ConceptState) (line : String) (source : Source),
      umlsSources (decodeConcept line).SAB = some source →
      (decodeConcept line).LAT = "ENG" →
      source.tty.contains (decodeConcept line).TTY = true →
      (decodeConcept line).SUPPRESS = "N" →
      ((s.m ((decodeConcept line).SAB ++ "|" ++ (decodeConcept line).CODE) = none →
        (conceptStep s line).emitted = s.emitted ++
          [(source.system,
            { code := (decodeConcept line).CODE, display := (decodeConcept line).STR })] ∧
        (conceptStep s line).processed = s.processed + 1) ∧
      (∀ e,
        s.m ((decodeConcept line).SAB ++ "|" ++ (decodeConcept line).CODE) = some e →
        jsIndexOf source.tty (decodeConcept line).TTY < jsIndexOf source.tty e.TTY →
        (conceptStep s line).emitted = s.emitted ++
          [(source.system,
            { code := (decodeConcept line).CODE, display := (decodeConcept line).STR })] ∧
        (conceptStep s line).processed = s.processed + 1) ∧
      (∀ e,
        s.m ((decodeConcept line).SAB ++ "|" ++ (decodeConcept line).CODE) = some e →
        jsIndexOf source.tty (decodeConcept line).TTY ≥ jsIndexOf source.tty e.TTY →
        (conceptStep s line).emitted = s.emitted ∧
        (conceptStep s line).processed = s.processed)) := by
  intro s line source hsrc hlat htty hsup
  rw [conceptStep_accepted s line source hsrc hlat htty hsup]
  refine ⟨?_, ?_, ?_⟩
  · intro hnone
    simp only [hnone]
    exact ⟨conceptAccept_emitted _ _ _, conceptAccept_processed _ _ _⟩
  · intro e he hlt
    simp only [he]
    rw [if_neg (not_le.mpr hlt)]
    exact ⟨conceptAccept_emitted _ _ _, conceptAccept_processed _ _ _⟩
  · intro e he hge
    simp only [he]
    rw [if_pos hge]
    exact ⟨rfl, rfl⟩

/-- Witness for C7 (amended): the first branch applied to `exFN` from the
empty state. -/
theorem per_record_append_witness :
    (conceptStep initConceptState exFN).emitted = initConceptState.emitted ++
      [("http://snomed.info/sct",
        { code := (decodeConcept exFN).CODE, display := (decodeConcept exFN).STR })] ∧
    (conceptStep initConceptState exFN).processed
      = initConceptState.processed + 1 := by
  have h := (per_record_append_amended initConceptState exFN
      ⟨"http://snomed.info/sct", ["FN", "PT", "SY"], snomedProps⟩
      (by decide) (by decide) (by decide) (by decide)).1 rfl
  exact h

/-! ## Claim C4: batch capacity invariant -/

theorem sum_map_length_of_capacity {α : Type} (l : List (List α))
    (h : ∀ b ∈ l, b.length = 500) : (l.map List.length).sum = l.length * 500 := by
  induction l with
  | nil => simp
  | cons b rest ih =>
    simp only [List.map_cons, List.sum_cons, List.length_cons]
    rw [h b (by simp), ih (fun b hb => h b (by simp [hb]))]
    ring

theorem batchRun_invariant {α : Type} (xs : List α) :
    ∀ s : BatchState α, s.buf.length < 500 → (∀ b ∈ s.flushed, b.length = 500) →
      (xs.foldl batchAppend s).buf.length < 500 ∧
      (∀ b ∈ (xs.foldl batchAppend s).flushed, b.length = 500) ∧
      (xs.foldl batchAppend s).flushed.length * 500 +
          (xs.foldl batchAppend s).buf.length
        = s.flushed.length * 500 + s.buf.length + xs.length := by
  induction xs with
  | nil => intro s hbuf hfl; exact ⟨hbuf, hfl, by simp⟩
  | cons x xs ih =>
    intro s hbuf hfl
    rw [List.foldl_cons]
    by_cases h : 500 ≤ (s.buf ++ [x]).length
    · have hlen : (s.buf ++ [x]).length = 500 := by
        simp only [List.length_append, List.length_singleton] at h ⊢
        omega
      have hfl' : ∀ b ∈ s.flushed ++ [s.buf ++ [x]], b.length = 500 := by
        intro b hb
        rcases List.mem_append.mp hb with hb | hb
        · exact hfl b hb
        · rw [List.mem_singleton.mp hb]; exact hlen
      have hb2 : (batchAppend s x).buf = [] := by
        unfold batchAppend
        rw [if_pos h]
      have hf2 : (batchAppend s x).flushed = s.flushed ++ [s.buf ++ [x]] := by
        unfold batchAppend
        rw [if_pos h]
      have := ih (batchAppend s x) (by rw [hb2]; simp) (by rw [hf2]; exact hfl')
      refine ⟨this.1, this.2.1, ?_⟩
      rw [this.2.2, hb2, hf2]
      have hlen' : s.buf.length + 1 = 500 := by simpa using hlen
      simp only [List.length_append, List.length_singleton, List.length_cons,
        List.length_nil]
      omega
    · have hb2 : (batchAppend s x).buf = s.buf ++ [x] := by
        unfold batchAppend
        rw [if_neg h]
      have hf2 : (batchAppend s x).flushed = s.flushed := by
        unfold batchAppend
        rw [if_neg h]
      have hbuf' : (batchAppend s x).buf.length < 500 := by
        rw [hb2]
        omega
      have := ih (batchAppend s x) hbuf' (by rw [hf2]; exact hfl)
      refine ⟨this.1, this.2.1, ?_⟩
      rw [this.2.2, hb2, hf2]
      simp only [List.length_append, List.length_singleton, List.length_cons,
        List.length_nil]
      omega

/-- C4: feeding any stream of N items for one target system through the
batching pattern shared by all three passes flushes exactly
ceil(N / 500) = (N + 499) / 500 batches in total (end-of-stream flush
included), the flushed batch lengths sum to exactly N, and every batch
flushed before end-of-stream holds exactly 500 items. -/
theorem batch_capacity_invariant {α : Type} (xs : List α) :
    (batchFinish (batchRun xs)).length = (xs.length + 499) / 500 ∧
    ((batchFinish (batchRun xs)).map List.length).sum = xs.length ∧
    (∀ b ∈ (batchRun xs).flushed, b.length = 500) := by
  have h := batchRun_invariant xs ⟨[], []⟩ (by simp) (by simp)
  have hbuf : (batchRun xs).buf.length < 500 := h.1
  have hfl : ∀ b ∈ (batchRun xs).flushed, b.length = 500 := h.2.1
  have hcnt0 : (batchRun xs).flushed.length * 500 + (batchRun xs).buf.length
      = 0 * 500 + 0 + xs.length := h.2.2
  have hcnt : (batchRun xs).flushed.length * 500 + (batchRun xs).buf.length
      = xs.length := by omega
  refine ⟨?_, ?_, hfl⟩
  · unfold batchFinish
    by_cases hb : (batchRun xs).buf.isEmpty
    · rw [if_pos hb]
      have : (batchRun xs).buf.length = 0 := by
        simpa [List.isEmpty_iff_length_eq_zero] using hb
      omega
    · rw [if_neg hb]
      have : (batchRun xs).buf.length ≠ 0 := by
        simpa [List.isEmpty_iff_length_eq_zero] using hb
      simp only [List.length_append, List.length_singleton]
      omega
  · unfold batchFinish
    by_cases hb : (batchRun xs).buf.isEmpty
    · rw [if_pos hb]
      have h0 : (batchRun xs).buf.length = 0 := by
        simpa [List.isEmpty_iff_length_eq_zero] using hb
      rw [sum_map_length_of_capacity _ hfl]
      omega
    · rw [if_neg hb]
      rw [List.map_append, List.sum_append]
      rw [sum_map_length_of_capacity _ hfl]
      simp only [List.map_cons, List.map_nil, List.sum_cons, List.sum_nil]
      omega

set_option maxRecDepth 8192 in
/-- Witness for C4: a 500-item stream flushes exactly one full batch
in-stream and nothing at end-of-stream; a 1-item stream flushes exactly the
final partial batch. -/
theorem batch_capacity_witness :
    (batchFinish (batchRun (List.replicate 500 ()))).length = 1 ∧
    ((batchFinish (batchRun (List.replicate 500 ()))).map List.length).sum = 500 ∧
    (List.replicate 500 () ∈ (batchRun (List.replicate 500 ())).flushed →
      (List.replicate 500 ()).length = 500) ∧
    (batchFinish (batchRun [()])).length = 1 ∧
    ((batchFinish (batchRun [()])).map List.length).sum = 1 := by
  have h500 := batch_capacity_invariant (List.replicate 500 ())
  have h1 := batch_capacity_invariant [()]
  exact ⟨h500.1, h500.2.1, fun hm => h500.2.2 _ hm, h1.1, h1.2.1⟩

/-! ## Claim C6: deterministic summary ordering -/

/-- C6 counterexample: two permutations of the same two-row stream (one
SNOMED row, one LOINC row, each yielding count 1) produce different
summaries: the sort comparator `(l, r) => r[1] - l[1]` has no tie-break, so
tied systems stay in insertion order, which follows stream order. -/
theorem summary_ordering_counterexample :
    List.Perm [exPT_A, exLoinc] [exLoinc, exPT_A] ∧
    conceptSummary [exPT_A, exLoinc] ≠ conceptSummary [exLoinc, exPT_A] := by
  exact ⟨List.Perm.swap exLoinc exPT_A [], by decide⟩

theorem chain_insertSorted {α : Type} (cmp : α → α → Int)
    (htot : ∀ a b : α, cmp a b ≤ 0 ∨ cmp b a ≤ 0) (x : α) (l : List α)
    (h : List.Chain' (fun a b => cmp a b ≤ 0) l) :
    List.Chain' (fun a b => cmp a b ≤ 0) (insertSorted cmp x l) := by
  induction l with
  | nil => simp [insertSorted]
  | cons y ys ih =>
    rw [insertSorted]
    by_cases hxy : cmp x y ≤ 0
    · rw [if_pos hxy]
      exact List.chain'_cons.mpr ⟨hxy, h⟩
    · rw [if_neg hxy]
      have hyx : cmp y x ≤ 0 := (htot x y).resolve_left hxy
      have hys : List.Chain' (fun a b => cmp a b ≤ 0) ys := h.tail
      have hins := ih hys
      cases ys with
      | nil => simpa [insertSorted] using hyx
      | cons z zs =>
        rw [insertSorted] at hins ⊢
        by_cases hxz : cmp x z ≤ 0
        · rw [if_pos hxz] at hins ⊢
          exact List.chain'_cons.mpr ⟨hyx, hins⟩
        · rw [if_neg hxz] at hins ⊢
          have hyz : cmp y z ≤ 0 := (List.chain'_cons.mp h).1
          exact List.chain'_cons.mpr ⟨hyz, hins⟩

theorem chain_sortByCmp {α : Type} (cmp : α → α → Int)
    (htot : ∀ a b : α, cmp a b ≤ 0 ∨ cmp b a ≤ 0) (l : List α) :
    List.Chain' (fun a b => cmp a b ≤ 0) (sortByCmp cmp l) := by
  induction l with
  | nil => simp [sortByCmp]
  | cons x xs ih =>
    rw [sortByCmp, List.foldr_cons]
    exact chain_insertSorted cmp htot x _ ih

/-- C6 amended: the concept-pass summary is sorted by descending count
only; tied entries keep their first-occurrence (insertion) order, so two
permutations of the same records agree on the multiset of summary lines
and on the descending-count ordering, but may order tied systems
differently (there is no system-name tie-break). -/
theorem summary_descending_amended :
    ∀ lines : List String,
      List.Chain' (fun a b : String × Nat => b.2 ≤ a.2) (conceptSummary lines) := by
  intro lines
  have h := chain_sortByCmp conceptCountsCmp
    (fun a b => by unfold conceptCountsCmp; omega) (runConcepts lines).counts
  exact h.imp (fun a b hab => by
    unfold conceptCountsCmp at hab
    omega)

/-! ## Claim C1: preference monotonicity -/

theorem conceptFilter_spec {c : UmlsConcept} (h : conceptFilter c = true) :
    ∃ source, umlsSources c.SAB = some source ∧ c.LAT = "ENG" ∧
      source.tty.contains c.TTY = true ∧ c.SUPPRESS = "N" := by
  unfold conceptFilter at h
  cases hs : umlsSources c.SAB with
  | none => rw [hs] at h; exact absurd h (by simp)
  | some source =>
    rw [hs] at h
    simp only [Bool.and_eq_true, decide_eq_true_eq] at h
    exact ⟨source, rfl, h.1.1, h.1.2, h.2⟩

/-- A step never changes the map at a key distinct from both the atom key
and the winner key of the processed record. -/
theorem conceptStep_m_preserved (s : ConceptState) (line : String) (k : String)
    (hk1 : k ≠ (decodeConcept line).AUI)
    (hk2 : k ≠ (decodeConcept line).SAB ++ "|" ++ (decodeConcept line).CODE) :
    (conceptStep s line).m k = s.m k := by
  by_cases hf : conceptFilter (decodeConcept line) = true
  · obtain ⟨source, hsrc, hlat, htty, hsup⟩ := conceptFilter_spec hf
    rw [conceptStep_accepted s line source hsrc hlat htty hsup]
    cases hm : s.m ((decodeConcept line).SAB ++ "|" ++ (decodeConcept line).CODE) with
    | none =>
      rw [conceptAccept_m]
      show setFn (setFn s.m (decodeConcept line).AUI (decodeConcept line)) _ _ k = s.m k
      rw [setFn_ne _ _ hk2, setFn_ne _ _ hk1]
    | some e =>
      dsimp only
      by_cases hge : jsIndexOf source.tty (decodeConcept line).TTY ≥
          jsIndexOf source.tty e.TTY
      · rw [if_pos hge]
        show setFn s.m (decodeConcept line).AUI (decodeConcept line) k = s.m k
        exact setFn_ne _ _ hk1
      · rw [if_neg hge, conceptAccept_m]
        show setFn (setFn s.m (decodeConcept line).AUI (decodeConcept line)) _ _ k = s.m k
        rw [setFn_ne _ _ hk2, setFn_ne _ _ hk1]
  · exact congrFun (conceptStep_filtered_out s line (by simpa using hf)).1 _

theorem mem_filteredFor {sab code : String} :
    ∀ {lines : List String} {r : UmlsConcept}, r ∈ filteredFor sab code lines →
      conceptFilter r = true ∧ r.SAB = sab ∧ r.CODE = code := by
  intro lines
  induction lines with
  | nil => intro r hr; simp [filteredFor] at hr
  | cons l ls ih =>
    intro r hr
    rw [filteredFor] at hr
    by_cases hc : conceptFilter (decodeConcept l) = true ∧
        (decodeConcept l).SAB = sab ∧ (decodeConcept l).CODE = code
    · rw [if_pos hc] at hr
      rcases List.mem_cons.mp hr with hr | hr
      · rw [hr]; exact hc
      · exact ih hr
    · rw [if_neg hc] at hr
      exact ih hr

theorem filteredFor_eq_filter (sab code : String) (lines : List String) :
    filteredFor sab code lines =
      (lines.map decodeConcept).filter
        (fun c => conceptFilter c && (decide (c.SAB = sab) && decide (c.CODE = code))) := by
  induction lines with
  | nil => simp [filteredFor]
  | cons l ls ih =>
    rw [filteredFor, List.map_cons, List.filter_cons]
    by_cases hc : conceptFilter (decodeConcept l) = true ∧
        (decodeConcept l).SAB = sab ∧ (decodeConcept l).CODE = code
    · rw [if_pos hc, ih, if_pos (by simp [hc.1, hc.2.1, hc.2.2])]
    · rw [if_neg hc, ih, if_neg ?hneg]
      case hneg =>
        intro hB
        simp only [Bool.and_eq_true, decide_eq_true_eq] at hB
        exact hc ⟨hB.1, hB.2.1, hB.2.2⟩

/-- The fold invariant behind preference monotonicity: the winner entry for
a (source, code) pair is always a minimum-priority record among the
filtered-in records consumed so far. -/
theorem winner_min_fold (sab code : String) (hsab : '|' ∉ sab.data) :
    ∀ (lines : List String) (s : ConceptState) (F : List UmlsConcept),
      (∀ r ∈ F, conceptFilter r = true ∧ r.SAB = sab ∧ r.CODE = code) →
      ((F = [] ∧ s.m (sab ++ "|" ++ code) = none) ∨
        (∃ r ∈ F, s.m (sab ++ "|" ++ code) = some r ∧
          ∀ r' ∈ F, ttyPriority r ≤ ttyPriority r')) →
      ((F ++ filteredFor sab code lines = [] ∧
          (lines.foldl conceptStep s).m (sab ++ "|" ++ code) = none) ∨
        (∃ r ∈ F ++ filteredFor sab code lines,
          (lines.foldl conceptStep s).m (sab ++ "|" ++ code) = some r ∧
          ∀ r' ∈ F ++ filteredFor sab code lines,
            ttyPriority r ≤ ttyPriority r')) := by
  intro lines
  induction lines with
  | nil =>
    intro s F hF hinv
    rw [filteredFor, List.append_nil, List.foldl_nil]
    exact hinv
  | cons l ls ih =>
    intro s F hF hinv
    rw [List.foldl_cons, filteredFor]
    by_cases hc : conceptFilter (decodeConcept l) = true ∧
        (decodeConcept l).SAB = sab ∧ (decodeConcept l).CODE = code
    · rw [if_pos hc]
      obtain ⟨source, hsrc, hlat, htty, hsup⟩ := conceptFilter_spec hc.1
      have hkeyeq : (decodeConcept l).SAB ++ "|" ++ (decodeConcept l).CODE
          = sab ++ "|" ++ code := by rw [hc.2.1, hc.2.2]
      have hAUIne : sab ++ "|" ++ code ≠ (decodeConcept l).AUI := by
        rw [← hkeyeq]
        exact Ne.symm (pipe_free_ne_key (decodeConcept_pipe_free l).1 _ _)
      have hstep := conceptStep_accepted s l source hsrc hlat htty hsup
      rw [hkeyeq] at hstep
      have hprioc : ttyPriority (decodeConcept l)
          = jsIndexOf source.tty (decodeConcept l).TTY := by
        unfold ttyPriority
        rw [hsrc]
      have hsrcsab : umlsSources sab = some source := by rw [← hc.2.1]; exact hsrc
      have hF1 : ∀ r ∈ F ++ [decodeConcept l],
          conceptFilter r = true ∧ r.SAB = sab ∧ r.CODE = code := by
        intro r hr
        rcases List.mem_append.mp hr with hr | hr
        · exact hF r hr
        · rw [List.mem_singleton.mp hr]; exact hc
      have hinv1 : ((F ++ [decodeConcept l]) = [] ∧
            (conceptStep s l).m (sab ++ "|" ++ code) = none) ∨
          (∃ r ∈ F ++ [decodeConcept l],
            (conceptStep s l).m (sab ++ "|" ++ code) = some r ∧
            ∀ r' ∈ F ++ [decodeConcept l], ttyPriority r ≤ ttyPriority r') := by
        right
        rcases hinv with ⟨hF0, hnone⟩ | ⟨r, hrF, hsm, hmin⟩
        · subst hF0
          refine ⟨decodeConcept l, by simp, ?_, ?_⟩
          · rw [hstep]
            simp only [hnone]
            rw [conceptAccept_m, hkeyeq]
            exact setFn_self _ _ _
          · intro r' hr'
            simp only [List.nil_append, List.mem_singleton] at hr'
            rw [hr']
        · have hrprops := hF r hrF
          have hsrcr : umlsSources r.SAB = some source := by
            rw [hrprops.2.1]; exact hsrcsab
          have hprior : ttyPriority r = jsIndexOf source.tty r.TTY := by
            unfold ttyPriority
            rw [hsrcr]
          by_cases hge : jsIndexOf source.tty (decodeConcept l).TTY ≥
              jsIndexOf source.tty r.TTY
          · refine ⟨r, List.mem_append_left _ hrF, ?_, ?_⟩
            · rw [hstep]
              simp only [hsm]
              rw [if_pos hge]
              show setFn s.m (decodeConcept l).AUI (decodeConcept l)
                  (sab ++ "|" ++ code) = some r
              rw [setFn_ne _ _ hAUIne]
              exact hsm
            · intro r' hr'
              rcases List.mem_append.mp hr' with hr' | hr'
              · exact hmin r' hr'
              · rw [List.mem_singleton.mp hr', hprior, hprioc]
                exact hge
          · refine ⟨decodeConcept l, by simp, ?_, ?_⟩
            · rw [hstep]
              simp only [hsm]
              rw [if_neg hge, conceptAccept_m, hkeyeq]
              exact setFn_self _ _ _
            · intro r' hr'
              rcases List.mem_append.mp hr' with hr' | hr'
              · have h1 := hmin r' hr'
                have h2 := lt_of_not_ge hge
                rw [hprior] at h1
                rw [hprioc]
                omega
              · rw [List.mem_singleton.mp hr']
      have hres := ih (conceptStep s l) (F ++ [decodeConcept l]) hF1 hinv1
      rw [List.append_assoc, List.singleton_append] at hres
      exact hres
    · rw [if_neg hc]
      have hm : (conceptStep s l).m (sab ++ "|" ++ code)
          = s.m (sab ++ "|" ++ code) := by
        by_cases hf : conceptFilter (decodeConcept l) = true
        · have hAUIne : sab ++ "|" ++ code ≠ (decodeConcept l).AUI :=
            Ne.symm (pipe_free_ne_key (decodeConcept_pipe_free l).1 _ _)
          have hkne : sab ++ "|" ++ code ≠
              (decodeConcept l).SAB ++ "|" ++ (decodeConcept l).CODE := by
            intro he
            have hij := key_inj hsab (decodeConcept_pipe_free l).2.1 he
            exact hc ⟨hf, hij.1.symm, hij.2.symm⟩
          exact conceptStep_m_preserved s l _ hAUIne hkne
        · exact congrFun (conceptStep_filtered_out s l (by simpa using hf)).1 _
      have hinv1 : (F = [] ∧ (conceptStep s l).m (sab ++ "|" ++ code) = none) ∨
          (∃ r ∈ F, (conceptStep s l).m (sab ++ "|" ++ code) = some r ∧
            ∀ r' ∈ F, ttyPriority r ≤ ttyPriority r') := by
        rw [hm]
        exact hinv
      exact ih (conceptStep s l) F hF hinv1

/-- The run-level corollary: the final winner entry for a pair, over a whole
stream. -/
theorem winner_min_run (lines : List String) (sab code : String)
    (hsab : '|' ∉ sab.data) :
    (filteredFor sab code lines = [] ∧
        (runConcepts lines).m (sab ++ "|" ++ code) = none) ∨
      (∃ r ∈ filteredFor sab code lines,
        (runConcepts lines).m (sab ++ "|" ++ code) = some r ∧
        ∀ r' ∈ filteredFor sab code lines, ttyPriority r ≤ ttyPriority r') := by
  have h := winner_min_fold sab code hsab lines initConceptState []
    (by intro r hr; simp at hr) (Or.inl ⟨rfl, rfl⟩)
  simpa using h

/-- C1 counterexample: two rows for the same (source, code) with the same
term type (priority tie) but different display strings; swapping their
order changes the final winning record, refuting "feeding the same multiset
of concept records in any permutation yields the same final winner". -/
theorem preference_monotonicity_counterexample :
    List.Perm [exPT_A, exPT_B] [exPT_B, exPT_A] ∧
    (runConcepts [exPT_A, exPT_B]).m "SNOMEDCT_US|100" ≠
      (runConcepts [exPT_B, exPT_A]).m "SNOMEDCT_US|100" := by
  exact ⟨List.Perm.swap exPT_B exPT_A [], by decide⟩

/-- C1 amended: for every pipe-free (source, code) pair, the final winner
stored under `SAB|CODE` exists iff some record was filtered in for the
pair, and it is a filtered-in record of minimal acceptedTermTypes priority;
under any permutation of the stream the final winner has the same (minimal)
priority, though ties are resolved in favour of the first-seen record, so
the winning record itself may differ between permutations. -/
theorem preference_monotonicity_amended :
    ∀ (lines : List String) (sab code : String), '|' ∉ sab.data →
      ((filteredFor sab code lines = [] →
          (runConcepts lines).m (sab ++ "|" ++ code) = none) ∧
       (filteredFor sab code lines ≠ [] →
          ∃ r ∈ filteredFor sab code lines,
            (runConcepts lines).m (sab ++ "|" ++ code) = some r ∧
            ∀ r' ∈ filteredFor sab code lines, ttyPriority r ≤ ttyPriority r') ∧
       (∀ lines' : List String, List.Perm lines' lines →
          ∀ r r', (runConcepts lines).m (sab ++ "|" ++ code) = some r →
            (runConcepts lines').m (sab ++ "|" ++ code) = some r' →
            ttyPriority r = ttyPriority r')) := by
  intro lines sab code hsab
  refine ⟨?_, ?_, ?_⟩
  · intro hemp
    rcases winner_min_run lines sab code hsab with h | ⟨r, hrF, _, _⟩
    · exact h.2
    · rw [hemp] at hrF
      exact absurd hrF (by simp)
  · intro hne
    rcases winner_min_run lines sab code hsab with h | h
    · exact absurd h.1 hne
    · exact h
  · intro lines' hp r r' hr hr'
    have hperm : List.Perm (filteredFor sab code lines')
        (filteredFor sab code lines) := by
      rw [filteredFor_eq_filter, filteredFor_eq_filter]
      exact (hp.map decodeConcept).filter _
    rcases winner_min_run lines sab code hsab with h | ⟨r₀, hr₀F, hr₀m, hr₀min⟩
    · rw [h.2] at hr; exact absurd hr (by simp)
    rcases winner_min_run lines' sab code hsab with h' | ⟨r₁, hr₁F, hr₁m, hr₁min⟩
    · rw [h'.2] at hr'; exact absurd hr' (by simp)
    have hrr₀ : r = r₀ := by
      rw [hr₀m] at hr
      exact (Option.some.inj hr).symm
    have hrr₁ : r' = r₁ := by
      rw [hr₁m] at hr'
      exact (Option.some.inj hr').symm
    rw [hrr₀, hrr₁]
    have h1 : ttyPriority r₀ ≤ ttyPriority r₁ :=
      hr₀min r₁ (hperm.mem_iff.mp hr₁F)
    have h2 : ttyPriority r₁ ≤ ttyPriority r₀ :=
      hr₁min r₀ (hperm.mem_iff.mpr hr₀F)
    omega

/-- Witness for C1 (amended): the single-row stream `[exPT_A]` for the pair
(SNOMEDCT_US, 100). -/
theorem preference_monotonicity_witness :
    ∃ r ∈ filteredFor "SNOMEDCT_US" "100" [exPT_A],
      (runConcepts [exPT_A]).m ("SNOMEDCT_US" ++ "|" ++ "100") = some r ∧
      ∀ r' ∈ filteredFor "SNOMEDCT_US" "100" [exPT_A],
        ttyPriority r ≤ ttyPriority r' := by
  exact (preference_monotonicity_amended [exPT_A] "SNOMEDCT_US" "100"
    (by decide)).2.1 (by decide)

/-! ## Claim C8: relationship property-code resolution order -/

/-- C8 counterexample: a Stage-A map entry whose value is the empty string.
Under the claim's resolution order, branch (a) — the exact lookup —
applies and determines the property code `""`; the pass instead tests the
looked-up value for truthiness, skips branch (a), finds no `PAR`/`CHD`
fallback for the label `XX`, and rejects the record without emitting an
assertion. -/
theorem resolution_order_counterexample :
    resolvePropertyNameClaim
        (fun k => if k = "SNOMEDCT_US/XX/" then some "" else none)
        ⟨"http://snomed.info/sct", ["FN", "PT", "SY"], snomedProps⟩
        (decodeRelationship exRelXX) = some "" ∧
    resolvePropertyName
        (fun k => if k = "SNOMEDCT_US/XX/" then some "" else none)
        ⟨"http://snomed.info/sct", ["FN", "PT", "SY"], snomedProps⟩
        (decodeRelationship exRelXX) = none ∧
    (relStep (fun k => if k = "SNOMEDCT_US/XX/" then some "" else none)
        (fun _ => none) initRelState exRelXX).emitted = [] ∧
    (relStep (fun k => if k = "SNOMEDCT_US/XX/" then some "" else none)
        (fun _ => none) initRelState exRelXX).processed = 0 := by decide

/-- C8 amended: the pass determines the target property code by, in order:
(a) the Stage-A map entry for `SAB/REL/RELA`, used only when it is a
non-empty code (an entry holding `""` is treated as absent); otherwise (b)
for REL = `PAR` the source's configured parent-property code, and (c) for
REL = `CHD` the configured child-property code, each used only when
configured and non-empty; otherwise the record is unmappable. -/
theorem resolution_order_amended :
    ∀ (relProps : String → Option String) (source : Source)
      (rel : UmlsRelationship),
      (∀ v, relProps (rel.SAB ++ "/" ++ rel.REL ++ "/" ++ rel.RELA) = some v →
        v ≠ "" → resolvePropertyName relProps source rel = some v) ∧
      ((relProps (rel.SAB ++ "/" ++ rel.REL ++ "/" ++ rel.RELA)).getD "" = "" →
        rel.REL = "PAR" →
        resolvePropertyName relProps source rel =
          (match source.props.find? (fun p => p.uri = PARENT_PROPERTY) with
           | some p => if p.code = "" then none else some p.code
           | none => none)) ∧
      ((relProps (rel.SAB ++ "/" ++ rel.REL ++ "/" ++ rel.RELA)).getD "" = "" →
        rel.REL ≠ "PAR" → rel.REL = "CHD" →
        resolvePropertyName relProps source rel =
          (match source.props.find? (fun p => p.uri = CHILD_PROPERTY) with
           | some p => if p.code = "" then none else some p.code
           | none => none)) ∧
      ((relProps (rel.SAB ++ "/" ++ rel.REL ++ "/" ++ rel.RELA)).getD "" = "" →
        rel.REL ≠ "PAR" → rel.REL ≠ "CHD" →
        resolvePropertyName relProps source rel = none) := by
  intro relProps source rel
  refine ⟨?_, ?_, ?_, ?_⟩
  · intro v hv hne
    unfold resolvePropertyName
    rw [hv]
    dsimp only [Option.getD_some]
    rw [if_pos hne, if_neg hne]
  · intro hm hp
    unfold resolvePropertyName
    rw [hm]
    dsimp only
    rw [if_neg (show ¬ (("" : String) ≠ "") from by simp)]
    rw [if_pos hp]
    cases hf : source.props.find? (fun p => p.uri = PARENT_PROPERTY) with
    | none =>
      dsimp only [Option.map_none', Option.getD_none]
      rfl
    | some p =>
      dsimp only [Option.map_some', Option.getD_some]
  · intro hm hp hcd
    unfold resolvePropertyName
    rw [hm]
    dsimp only
    rw [if_neg (show ¬ (("" : String) ≠ "") from by simp)]
    rw [if_neg hp, if_pos hcd]
    cases hf : source.props.find? (fun p => p.uri = CHILD_PROPERTY) with
    | none =>
      dsimp only [Option.map_none', Option.getD_none]
      rfl
    | some p =>
      dsimp only [Option.map_some', Option.getD_some]
  · intro hm hp hcd
    unfold resolvePropertyName
    rw [hm]
    dsimp only
    rw [if_neg (show ¬ (("" : String) ≠ "") from by simp)]
    rw [if_neg hp, if_neg hcd]
    rfl

/-- Witness for C8 (amended): branch (a) on a Stage-A map derived from a
real documentation row. -/
theorem resolution_order_witness :
    resolvePropertyName (prepareRelationshipProperties [exDocRO])
      ⟨"http://snomed.info/sct", ["FN", "PT", "SY"], snomedProps⟩
      (decodeRelationship exRelRO) = some "someprop" := by
  exact (resolution_order_amended (prepareRelationshipProperties [exDocRO])
      ⟨"http://snomed.info/sct", ["FN", "PT", "SY"], snomedProps⟩
      (decodeRelationship exRelRO)).1 "someprop" (by decide) (by decide)

/-! ## Claim C5: relationship endpoint resolution -/

/-- C5 counterexample: both atom identifiers of the relationship `exRelRO`
exist in the atom index built from the concept pass, but the first atom's
record has an empty CODE column, so the pass's truthiness test (`!code`)
drops the relationship and increments the skip counter instead of emitting
the assertion the claim requires. -/
theorem endpoint_resolution_counterexample :
    ((runConcepts [exEmptyCode, exPT200]).m "A5").isSome = true ∧
    ((runConcepts [exEmptyCode, exPT200]).m "A6").isSome = true ∧
    (relStep (prepareRelationshipProperties [exDocRO])
        (runConcepts [exEmptyCode, exPT200]).m initRelState exRelRO).emitted = [] ∧
    (relStep (prepareRelationshipProperties [exDocRO])
        (runConcepts [exEmptyCode, exPT200]).m initRelState exRelRO).skipped = 1 := by
  decide

/-- C5 amended: for a filtered-in, mappable relationship record, if both
atom identifiers resolve to records with non-empty CODE values then exactly
one property assertion {code = first atom's CODE, property, value = second
atom's CODE} is appended, with no skip and no warning; if the first
identifier misses the index (or, symmetrically, the first resolves to a
usable code but the second misses), no assertion is appended, the skip
counter increments by one, the warning names the failing side's atom
identifier, and the pass continues. -/
theorem endpoint_resolution_amended :
    ∀ (relProps : String → Option String)
      (mappedCodes : String → Option UmlsConcept) (s : RelState)
      (line : String) (source : Source) (pn : String),
      umlsSources (decodeRelationship line).SAB = some source →
      (decodeRelationship line).SUPPRESS = "N" →
      resolvePropertyName relProps source (decodeRelationship line) = some pn →
      ((∀ c v, mappedCodes (decodeRelationship line).AUI1 = some c →
          mappedCodes (decodeRelationship line).AUI2 = some v →
          c.CODE ≠ "" → v.CODE ≠ "" →
          (relStep relProps mappedCodes s line).emitted = s.emitted ++
            [(source.system,
              { code := c.CODE, property := pn, value := v.CODE })] ∧
          (relStep relProps mappedCodes s line).skipped = s.skipped ∧
          (relStep relProps mappedCodes s line).warnings = s.warnings) ∧
       (mappedCodes (decodeRelationship line).AUI1 = none →
          (relStep relProps mappedCodes s line).emitted = s.emitted ∧
          (relStep relProps mappedCodes s line).skipped = s.skipped + 1 ∧
          (relStep relProps mappedCodes s line).warnings = s.warnings ++
            [(pn,
              (decodeRelationship line).REL ++ "/" ++ (decodeRelationship line).RELA,
              (decodeRelationship line).AUI1)]) ∧
       (∀ c, mappedCodes (decodeRelationship line).AUI1 = some c → c.CODE ≠ "" →
          mappedCodes (decodeRelationship line).AUI2 = none →
          (relStep relProps mappedCodes s line).emitted = s.emitted ∧
          (relStep relProps mappedCodes s line).skipped = s.skipped + 1 ∧
          (relStep relProps mappedCodes s line).warnings = s.warnings ++
            [(pn,
              (decodeRelationship line).REL ++ "/" ++ (decodeRelationship line).RELA,
              (decodeRelationship line).AUI2)])) := by
  intro relProps mappedCodes s line source pn hsrc hsup hres
  refine ⟨?_, ?_, ?_⟩
  · intro c v h1 h2 hc hv
    unfold relStep
    simp only [hsrc]
    rw [if_neg (by simp [hsup] : ¬ (decodeRelationship line).SUPPRESS ≠ "N")]
    simp only [hres]
    simp only [h1, h2, Option.map_some', Option.getD_some]
    rw [if_neg (by simp [hc, hv] : ¬ (c.CODE = "" ∨ v.CODE = ""))]
    dsimp only
    refine ⟨?_, ?_, ?_⟩ <;> first
    | rfl
    | (split <;> rfl)
  · intro h1
    unfold relStep
    simp only [hsrc]
    rw [if_neg (by simp [hsup] : ¬ (decodeRelationship line).SUPPRESS ≠ "N")]
    simp only [hres]
    simp only [h1, Option.map_none', Option.getD_none]
    rw [if_pos (Or.inl trivial)]
    refine ⟨rfl, rfl, ?_⟩
    rw [if_neg (show ¬ (("" : String) ≠ "") from by simp)]
  · intro c h1 hc h2
    unfold relStep
    simp only [hsrc]
    rw [if_neg (by simp [hsup] : ¬ (decodeRelationship line).SUPPRESS ≠ "N")]
    simp only [hres]
    simp only [h1, h2, Option.map_some', Option.map_none', Option.getD_some,
      Option.getD_none]
    rw [if_pos (Or.inr trivial)]
    refine ⟨rfl, rfl, ?_⟩
    rw [if_pos hc]

/-- Witness for C5 (amended): the relationship `exRelRO2` resolved against
the atom index of a two-row concept run. -/
theorem endpoint_resolution_witness :
    (relStep (prepareRelationshipProperties [exDocRO])
        (runConcepts [exFN, exPT200]).m initRelState exRelRO2).emitted =
      initRelState.emitted ++
        [("http://snomed.info/sct",
          { code := (decodeConcept exFN).CODE, property := "someprop",
            value := (decodeConcept exPT200).CODE })] ∧
    (relStep (prepareRelationshipProperties [exDocRO])
        (runConcepts [exFN, exPT200]).m initRelState exRelRO2).skipped =
      initRelState.skipped := by
  have h := (endpoint_resolution_amended (prepareRelationshipProperties [exDocRO])
      (runConcepts [exFN, exPT200]).m initRelState exRelRO2
      ⟨"http://snomed.info/sct", ["FN", "PT", "SY"], snomedProps⟩ "someprop"
      (by decide) (by decide) (by decide)).1 (decodeConcept exFN)
      (decodeConcept exPT200) (by decide) (by decide) (by decide) (by decide)
  exact ⟨h.1, h.2.1⟩

/-! ## Claim C9: malformed-line totality -/

theorem fieldD_of_short {fs : List String} {i : Nat} (h : fs.length ≤ i) :
    fieldD fs i = "" := by
  unfold fieldD
  rw [List.getD_eq_getElem?_getD, List.getElem?_eq_none h]
  rfl

theorem fieldD_take {fs : List String} {n i : Nat} (h : i < n) :
    fieldD (fs.take n) i = fieldD fs i := by
  unfold fieldD
  rw [List.getD_eq_getElem?_getD, List.getD_eq_getElem?_getD,
    List.getElem?_take_of_lt h]

theorem conceptFilter_short {line : String}
    (h : (splitPipe line).length < 17) :
    conceptFilter (decodeConcept line) = false := by
  have hs : (decodeConcept line).SUPPRESS = "" := fieldD_of_short (by omega)
  unfold conceptFilter
  cases umlsSources (decodeConcept line).SAB <;> simp [hs]

theorem attrStep_short (s : AttrState) (line : String)
    (h : (splitPipe line).length < 12) :
    (attrStep s line).properties = s.properties ∧
    (attrStep s line).flushedProperties = s.flushedProperties ∧
    (attrStep s line).emitted = s.emitted ∧
    (attrStep s line).counts = s.counts ∧
    (attrStep s line).processed = s.processed ∧
    ((attrStep s line).skipped = s.skipped ∨
      (attrStep s line).skipped = s.skipped + 1) := by
  have hs : (decodeAttribute line).SUPPRESS = "" := fieldD_of_short (by omega)
  unfold attrStep
  cases hsrc : umlsSources (decodeAttribute line).SAB with
  | none => simp [hsrc]
  | some source =>
    simp only [hsrc]
    rw [if_pos (by simp [hs])]
    simp

theorem relStep_short (relProps : String → Option String)
    (mc : String → Option UmlsConcept) (s : RelState) (line : String)
    (h : (splitPipe line).length < 15) :
    (relStep relProps mc s line).properties = s.properties ∧
    (relStep relProps mc s line).flushedProperties = s.flushedProperties ∧
    (relStep relProps mc s line).emitted = s.emitted ∧
    (relStep relProps mc s line).counts = s.counts ∧
    (relStep relProps mc s line).processed = s.processed ∧
    (relStep relProps mc s line).warnings = s.warnings ∧
    ((relStep relProps mc s line).skipped = s.skipped ∨
      (relStep relProps mc s line).skipped = s.skipped + 1) := by
  have hs : (decodeRelationship line).SUPPRESS = "" := fieldD_of_short (by omega)
  unfold relStep
  cases hsrc : umlsSources (decodeRelationship line).SAB with
  | none => simp [hsrc]
  | some source =>
    simp only [hsrc]
    rw [if_pos (by simp [hs])]
    simp

/-- C9 counterexample: the documentation pass does not drop a malformed
3-column line — `exDocShort` matches the DOCKEY/TYPE filter, mutates the
Stage-A accumulator, and ends up as a mapping entry whose explanation
defaulted to empty, refuting the claim that dropped-by-filters handling is
applied uniformly across all four passes. -/
theorem malformed_totality_counterexample :
    (splitPipe exDocShort).length = 3 ∧
    prepareRelationshipProperties [exDocShort] "SNOMEDCT_US//" = some "RB" := by
  decide

/-- C9 amended: decoding and per-record processing are total in every pass,
and in the concept, attribute and relationship passes a line with too few
columns is dropped by the filters before any state mutation (only the skip
counter may increment, because the missing SUPPRESS column reads as a
suppressed value), while extra columns beyond the schema are ignored (the
decoded record depends only on the first 17 fields).  The documentation
pass is total too, but a 3-column line whose DOCKEY/TYPE match still
records a mapping with an empty explanation (see the counterexample). -/
theorem malformed_totality_amended :
    ∀ (s : ConceptState) (sa : AttrState) (relProps : String → Option String)
      (mc : String → Option UmlsConcept) (sr : RelState) (line : String),
      ((splitPipe line).length < 17 →
        (conceptStep s line).m = s.m ∧
        (conceptStep s line).counts = s.counts ∧
        (conceptStep s line).codings = s.codings ∧
        (conceptStep s line).flushedCodings = s.flushedCodings ∧
        (conceptStep s line).emitted = s.emitted ∧
        (conceptStep s line).processed = s.processed ∧
        ((conceptStep s line).skipped = s.skipped ∨
          (conceptStep s line).skipped = s.skipped + 1)) ∧
      ((splitPipe line).length < 12 →
        (attrStep sa line).properties = sa.properties ∧
        (attrStep sa line).emitted = sa.emitted ∧
        ((attrStep sa line).skipped = sa.skipped ∨
          (attrStep sa line).skipped = sa.skipped + 1)) ∧
      ((splitPipe line).length < 15 →
        (relStep relProps mc sr line).properties = sr.properties ∧
        (relStep relProps mc sr line).emitted = sr.emitted ∧
        ((relStep relProps mc sr line).skipped = sr.skipped ∨
          (relStep relProps mc sr line).skipped = sr.skipped + 1)) ∧
      (∀ line' : String,
        (splitPipe line).take 17 = (splitPipe line').take 17 →
        decodeConcept line = decodeConcept line') := by
  intro s sa relProps mc sr line
  refine ⟨?_, ?_, ?_, ?_⟩
  · intro h
    exact conceptStep_filtered_out s line (conceptFilter_short h)
  · intro h
    have ha := attrStep_short sa line h
    exact ⟨ha.1, ha.2.2.1, ha.2.2.2.2.2⟩
  · intro h
    have hr := relStep_short relProps mc sr line h
    exact ⟨hr.1, hr.2.2.1, hr.2.2.2.2.2.2⟩
  · intro line' htake
    have hf : ∀ i, i < 17 →
        fieldD (splitPipe line) i = fieldD (splitPipe line') i := by
      intro i hi
      rw [← fieldD_take hi, htake, fieldD_take hi]
    unfold decodeConcept
    dsimp only
    simp only [UmlsConcept.mk.injEq]
    exact ⟨hf 0 (by omega), hf 1 (by omega), hf 2 (by omega), hf 3 (by omega),
        hf 4 (by omega), hf 5 (by omega), hf 6 (by omega), hf 7 (by omega),
        hf 8 (by omega), hf 9 (by omega), hf 10 (by omega), hf 11 (by omega),
        hf 12 (by omega), hf 13 (by omega), hf 14 (by omega), hf 15 (by omega),
        hf 16 (by omega)⟩

/-- Witness for C9 (amended): a 3-column concept line from the empty state,
and `exPT_A` versus the same line with two extra columns. -/
theorem malformed_totality_witness :
    (conceptStep initConceptState exShortConcept).m = initConceptState.m ∧
    ((conceptStep initConceptState exShortConcept).skipped =
        initConceptState.skipped ∨
      (conceptStep initConceptState exShortConcept).skipped =
        initConceptState.skipped + 1) ∧
    decodeConcept exPT_A = decodeConcept exPT_A_extra := by
  have h := malformed_totality_amended initConceptState initAttrState
    (fun _ => none) (fun _ => none) initRelState exShortConcept
  have h2 := malformed_totality_amended initConceptState initAttrState
    (fun _ => none) (fun _ => none) initRelState exPT_A
  exact ⟨(h.1 (by decide)).1, (h.1 (by decide)).2.2.2.2.2.2,
    h2.2.2.2 exPT_A_extra (by decide)⟩

/-! ## Claim C10: atom-index keyspace disjointness -/

theorem conceptStep2_accepted (s2 : AtomIndex2) (line : String) (source : Source)
    (hsrc : umlsSources (decodeConcept line).SAB = some source)
    (hlat : (decodeConcept line).LAT = "ENG")
    (htty : source.tty.contains (decodeConcept line).TTY = true)
    (hsup : (decodeConcept line).SUPPRESS = "N") :
    conceptStep2 s2 line =
      match s2.winners ((decodeConcept line).SAB ++ "|" ++ (decodeConcept line).CODE) with
      | some existing =>
        if jsIndexOf source.tty (decodeConcept line).TTY ≥
            jsIndexOf source.tty existing.TTY then
          { atoms := setFn s2.atoms (decodeConcept line).AUI (decodeConcept line)
            winners := s2.winners }
        else
          { atoms := setFn s2.atoms (decodeConcept line).AUI (decodeConcept line)
            winners := setFn s2.winners
              ((decodeConcept line).SAB ++ "|" ++ (decodeConcept line).CODE)
              (decodeConcept line) }
      | none =>
        { atoms := setFn s2.atoms (decodeConcept line).AUI (decodeConcept line)
          winners := setFn s2.winners
            ((decodeConcept line).SAB ++ "|" ++ (decodeConcept line).CODE)
            (decodeConcept line) } := by
  have hmem : (decodeConcept line).TTY ∈ source.tty := by simpa using htty
  simp only [conceptStep2, hsrc]
  rw [if_neg (by simp [hlat] : ¬ (decodeConcept line).LAT ≠ "ENG")]
  rw [if_neg (by simp [hmem] : ¬ ¬ source.tty.contains (decodeConcept line).TTY)]
  rw [if_neg (by simp [hsup] : ¬ (decodeConcept line).SUPPRESS ≠ "N")]

theorem conceptStep2_filtered_out (s2 : AtomIndex2) (line : String)
    (h : conceptFilter (decodeConcept line) = false) :
    conceptStep2 s2 line = s2 := by
  unfold conceptFilter at h
  unfold conceptStep2
  cases hsrc : umlsSources (decodeConcept line).SAB with
  | none => simp [hsrc]
  | some source =>
    rw [hsrc] at h
    simp only [hsrc]
    by_cases hlat : (decodeConcept line).LAT = "ENG"
    · by_cases hmem : (decodeConcept line).TTY ∈ source.tty
      · have hsup : ¬ (decodeConcept line).SUPPRESS = "N" := by
          simpa [hlat, hmem] using h
        rw [if_neg (by simp [hlat] : ¬ (decodeConcept line).LAT ≠ "ENG")]
        rw [if_neg (by simp [hmem] : ¬ ¬ source.tty.contains (decodeConcept line).TTY)]
        rw [if_pos hsup]
      · rw [if_neg (by simp [hlat] : ¬ (decodeConcept line).LAT ≠ "ENG")]
        rw [if_pos (by simpa using hmem)]
    · rw [if_pos (by simpa using hlat)]

theorem agree_setFn_atom (m at2 wn : String → Option UmlsConcept)
    (c : UmlsConcept) (a : String) (ha : '|' ∉ a.data)
    (hag : ∀ k, ('|' ∉ k.data → m k = at2 k) ∧ ('|' ∈ k.data → m k = wn k)) :
    ∀ k, ('|' ∉ k.data → setFn m a c k = setFn at2 a c k) ∧
      ('|' ∈ k.data → setFn m a c k = wn k) := by
  intro k
  constructor
  · intro hk
    unfold setFn
    by_cases hka : k = a
    · rw [if_pos hka, if_pos hka]
    · rw [if_neg hka, if_neg hka]
      exact (hag k).1 hk
  · intro hk
    have hka : k ≠ a := fun he => ha (he ▸ hk)
    rw [setFn_ne _ _ hka]
    exact (hag k).2 hk

theorem agree_setFn_winner (m at2 wn : String → Option UmlsConcept)
    (c : UmlsConcept) (w : String) (hw : '|' ∈ w.data)
    (hag : ∀ k, ('|' ∉ k.data → m k = at2 k) ∧ ('|' ∈ k.data → m k = wn k)) :
    ∀ k, ('|' ∉ k.data → setFn m w c k = at2 k) ∧
      ('|' ∈ k.data → setFn m w c k = setFn wn w c k) := by
  intro k
  constructor
  · intro hk
    have hkw : k ≠ w := fun he => hk (he ▸ hw)
    rw [setFn_ne _ _ hkw]
    exact (hag k).1 hk
  · intro hk
    unfold setFn
    by_cases hkw : k = w
    · rw [if_pos hkw, if_pos hkw]
    · rw [if_neg hkw, if_neg hkw]
      exact (hag k).2 hk

theorem winner_key_has_pipe (a b : String) : '|' ∈ (a ++ "|" ++ b).data := by
  rw [data_append, data_append]
  have h : '|' ∈ ("|" : String).data := by decide
  exact List.mem_append.mpr (Or.inl (List.mem_append.mpr (Or.inr h)))

theorem twoMap_step (s : ConceptState) (s2 : AtomIndex2) (line : String)
    (hag : ∀ k, ('|' ∉ k.data → s.m k = s2.atoms k) ∧
      ('|' ∈ k.data → s.m k = s2.winners k)) :
    ∀ k, ('|' ∉ k.data → (conceptStep s line).m k = (conceptStep2 s2 line).atoms k) ∧
      ('|' ∈ k.data → (conceptStep s line).m k = (conceptStep2 s2 line).winners k) := by
  by_cases hf : conceptFilter (decodeConcept line) = true
  · obtain ⟨source, hsrc, hlat, htty, hsup⟩ := conceptFilter_spec hf
    have hkey : '|' ∈
        ((decodeConcept line).SAB ++ "|" ++ (decodeConcept line).CODE).data :=
      winner_key_has_pipe _ _
    have hscrut : s.m ((decodeConcept line).SAB ++ "|" ++ (decodeConcept line).CODE)
        = s2.winners ((decodeConcept line).SAB ++ "|" ++ (decodeConcept line).CODE) :=
      (hag _).2 hkey
    rw [conceptStep_accepted s line source hsrc hlat htty hsup,
      conceptStep2_accepted s2 line source hsrc hlat htty hsup, hscrut]
    cases hw : s2.winners ((decodeConcept line).SAB ++ "|" ++ (decodeConcept line).CODE) with
    | none =>
      dsimp only
      intro k
      have h1 := agree_setFn_atom s.m s2.atoms s2.winners (decodeConcept line)
        (decodeConcept line).AUI (decodeConcept_pipe_free line).1 hag
      have h2 := agree_setFn_winner
        (setFn s.m (decodeConcept line).AUI (decodeConcept line))
        (setFn s2.atoms (decodeConcept line).AUI (decodeConcept line)) s2.winners
        (decodeConcept line)
        ((decodeConcept line).SAB ++ "|" ++ (decodeConcept line).CODE) hkey h1
      constructor
      · intro hk
        rw [conceptAccept_m]
        exact (h2 k).1 hk
      · intro hk
        rw [conceptAccept_m]
        exact (h2 k).2 hk
    | some e =>
      dsimp only
      by_cases hge : jsIndexOf source.tty (decodeConcept line).TTY ≥
          jsIndexOf source.tty e.TTY
      · rw [if_pos hge, if_pos hge]
        intro k
        have h1 := agree_setFn_atom s.m s2.atoms s2.winners (decodeConcept line)
          (decodeConcept line).AUI (decodeConcept_pipe_free line).1 hag
        exact ⟨fun hk => (h1 k).1 hk, fun hk => (h1 k).2 hk⟩
      · rw [if_neg hge, if_neg hge]
        intro k
        have h1 := agree_setFn_atom s.m s2.atoms s2.winners (decodeConcept line)
          (decodeConcept line).AUI (decodeConcept_pipe_free line).1 hag
        have h2 := agree_setFn_winner
          (setFn s.m (decodeConcept line).AUI (decodeConcept line))
          (setFn s2.atoms (decodeConcept line).AUI (decodeConcept line)) s2.winners
          (decodeConcept line)
          ((decodeConcept line).SAB ++ "|" ++ (decodeConcept line).CODE) hkey h1
        constructor
        · intro hk
          rw [conceptAccept_m]
          exact (h2 k).1 hk
        · intro hk
          rw [conceptAccept_m]
          exact (h2 k).2 hk
  · have hm := (conceptStep_filtered_out s line (by simpa using hf)).1
    have hm2 := conceptStep2_filtered_out s2 line (by simpa using hf)
    rw [hm, hm2]
    exact hag

theorem twoMap_fold :
    ∀ (lines : List String) (s : ConceptState) (s2 : AtomIndex2),
      (∀ k, ('|' ∉ k.data → s.m k = s2.atoms k) ∧
        ('|' ∈ k.data → s.m k = s2.winners k)) →
      ∀ k, ('|' ∉ k.data →
          (lines.foldl conceptStep s).m k = (lines.foldl conceptStep2 s2).atoms k) ∧
        ('|' ∈ k.data →
          (lines.foldl conceptStep s).m k = (lines.foldl conceptStep2 s2).winners k) := by
  intro lines
  induction lines with
  | nil => intro s s2 hag; exact hag
  | cons l ls ih =>
    intro s s2 hag
    rw [List.foldl_cons, List.foldl_cons]
    exact ih (conceptStep s l) (conceptStep2 s2 l) (twoMap_step s s2 l hag)

/-- C10: every field produced by the pipe-split is pipe-free, so a decoded
record's AUI can never equal any winner key `SAB|CODE`; consequently the
single `mappedConcepts` object of the concept pass agrees, at every
pipe-free key, with the atom map of the spec's two-map AtomIndex, and at
every pipe-containing key with its winner map — an atom lookup can never
return a winner entry and a winner update can never overwrite an atom
entry. -/
theorem atomindex_keyspace_disjoint :
    (∀ (line f : String), f ∈ splitPipe line → '|' ∉ f.data) ∧
    (∀ (line a b : String), (decodeConcept line).AUI ≠ a ++ "|" ++ b) ∧
    (∀ (lines : List String) (k : String),
      ('|' ∉ k.data → (runConcepts lines).m k = (runConcepts2 lines).atoms k) ∧
      ('|' ∈ k.data → (runConcepts lines).m k = (runConcepts2 lines).winners k)) := by
  refine ⟨fun line f hf => splitPipe_pipe_free hf,
    fun line a b => pipe_free_ne_key (decodeConcept_pipe_free line).1 a b, ?_⟩
  intro lines
  exact twoMap_fold lines initConceptState ⟨fun _ => none, fun _ => none⟩
    (fun k => ⟨fun _ => rfl, fun _ => rfl⟩)

/-- Witness for C10: a concrete one-row run; the atom key `A1` resolves
through the atom side and the winner key `SNOMEDCT_US|100` through the
winner side. -/
theorem atomindex_keyspace_witness :
    '|' ∉ ((splitPipe exPT_A).getD 7 "").data ∧
    (runConcepts [exPT_A]).m "A1" = (runConcepts2 [exPT_A]).atoms "A1" ∧
    (runConcepts [exPT_A]).m "SNOMEDCT_US|100"
      = (runConcepts2 [exPT_A]).winners "SNOMEDCT_US|100" := by
  refine ⟨?_, ?_, ?_⟩
  · exact atomindex_keyspace_disjoint.1 exPT_A _ (by decide)
  · exact (atomindex_keyspace_disjoint.2.2 [exPT_A] "A1").1 (by decide)
  · exact (atomindex_keyspace_disjoint.2.2 [exPT_A] "SNOMEDCT_US|100").2 (by decide)

end Umls
